import Mathlib

/-!
Verification of the timetracker-cli storage/aggregation core.

This file gives a shallow embedding, in Lean 4, of the storage and
aggregation logic of the `timetracker-cli` repository and proves
properties of it.  The embedding follows the current versions of the
JavaScript sources:

* `src/lib/services/TimeCalculator.js` — `roundToNearest15`,
  `filterEntriesByPeriod`, `filterEntriesByProject`
* `src/lib/models/SessionEntry.js` and `src/lib/models/TimeEntry.js`
* `src/lib/services/FileManager.js` — `readAllLogEntries`,
  `writeLogEntries`
* `src/lib/services/ProjectManager.js` — `deleteProject`,
  `deleteByProject`
* `src/lib/services/ProjectHierarchy.js`
* the current `TimeTracker` orchestrator (auto-stop variant)

Modelling conventions:

* JavaScript strings are modelled as `List Char` (`Str`); `str` turns a
  Lean string literal into one.
* JavaScript `Date` values that the code stores in log entries are
  calendar dates; they are modelled as `CivilDate` (year/month/day)
  records, with `none : Option CivilDate` standing for an Invalid Date
  (`NaN` time value).  Session timestamps are modelled as integer
  milliseconds since the epoch.
* Millisecond arithmetic: `Math.round((end - start) / 60000)` is exact
  integer arithmetic, `Int.fdiv (2*(end-start) + 60000) 120000`
  (`Math.round` rounds half-up, i.e. towards +infinity, which is what
  `fdiv` of the doubled-and-shifted value computes).
* Files are modelled as `Option (List Str)`: `none` is a missing file,
  otherwise the list of text lines.  Fields are assumed not to contain
  newline characters (a newline inside a field would corrupt the line
  structure of the real file as well).
-/

namespace TT

/-- JavaScript strings, modelled as lists of characters. -/
abbrev Str := List Char

/-- Embed a Lean string literal as a `Str`. -/
def str (s : String) : Str := s.data

/-- Whitespace test used by `String.prototype.trim` (ASCII portion). -/
def jsWhite (c : Char) : Bool := c = ' ' ∨ c = '\t' ∨ c = '\n' ∨ c = '\r'

/-- `String.prototype.trim`: strip whitespace from both ends. -/
def trimChars (s : Str) : Str :=
  ((s.dropWhile jsWhite).reverse.dropWhile jsWhite).reverse

/-- `String.prototype.toLowerCase` (ASCII case mapping suffices for the
data handled here). -/
def toLowerStr (s : Str) : Str := s.map Char.toLower

/-- `String.prototype.includes`: substring test. -/
def strContains (s sub : Str) : Bool :=
  if sub.isPrefixOf s then true
  else
    match s with
    | [] => false
    | _ :: rest => strContains rest sub

/-- `String.prototype.split(sep)` for a one-character separator.
`splitOnChar c "a,b," = ["a","b",""]`, `splitOnChar c "" = [""]`. -/
def splitOnChar (c : Char) : Str → List Str
  | [] => [[]]
  | x :: xs =>
    if x = c then [] :: splitOnChar c xs
    else
      match splitOnChar c xs with
      | [] => [[x]]
      | h :: t => (x :: h) :: t

/-- `Array.prototype.join(sep)` for a one-character separator. -/
def joinChar (c : Char) : List Str → Str
  | [] => []
  | [s] => s
  | s :: s' :: rest => s ++ c :: joinChar c (s' :: rest)

/-- Decimal digit character for a digit value (values `≥ 9` clamp to
`'9'`; callers only pass `0`–`9`). -/
def digitChar : Nat → Char
  | 0 => '0' | 1 => '1' | 2 => '2' | 3 => '3' | 4 => '4'
  | 5 => '5' | 6 => '6' | 7 => '7' | 8 => '8' | _ => '9'

/-- Decimal representation of a natural number, as produced by
JavaScript number-to-string conversion for nonnegative integers. -/
def natToChars (n : Nat) : Str :=
  if _h : n < 10 then [digitChar n]
  else natToChars (n / 10) ++ [digitChar (n % 10)]
decreasing_by exact Nat.div_lt_self (by omega) (by omega)

/-- Decimal representation of an integer. -/
def intToChars (i : Int) : Str :=
  if i < 0 then '-' :: natToChars i.natAbs else natToChars i.toNat

/-- Numeric value of a list of decimal digit characters. -/
def charsVal (s : Str) : Nat :=
  s.foldl (fun a c => 10 * a + (c.toNat - 48)) 0

/-- Leading decimal digits of a string, as a number; `none` when the
string does not start with a digit. -/
def parseDigitsVal (s : Str) : Option Nat :=
  let ds := s.takeWhile Char.isDigit
  if ds = [] then none else some (charsVal ds)

/-- JavaScript `parseInt(s)` restricted to radix-10 inputs: skip leading
whitespace, read an optional sign and then leading digits; `none` models
`NaN`.  (Hex prefixes and exotic whitespace are outside the data handled
by the log reader.) -/
def jsParseInt (s : Str) : Option Int :=
  match s.dropWhile jsWhite with
  | [] => none
  | c :: rest =>
    if c = '-' then (parseDigitsVal rest).map (fun n => -(n : Int))
    else if c = '+' then (parseDigitsVal rest).map (fun n => (n : Int))
    else (parseDigitsVal (c :: rest)).map (fun n => (n : Int))

/-! ### `TimeCalculator.roundToNearest15` (src/lib/services/TimeCalculator.js)

```js
static roundToNearest15(minutes) {
  if (minutes < 8) return 0;
  const remainder = minutes % 60;
  const hours = Math.floor(minutes / 60);
  let roundedMinutes;
  if (remainder <= 22)      { roundedMinutes = 15; }
  else if (remainder <= 37) { roundedMinutes = 30; }
  else if (remainder <= 52) { roundedMinutes = 45; }
  else                      { return (hours + 1) * 60; }
  return hours * 60 + roundedMinutes;
}
```

For `minutes ≥ 8` the JavaScript `%` and `Math.floor(· / 60)` agree with
Lean's `Int.emod` and `Int.div` on nonnegative operands. -/

def roundToNearest15 (minutes : Int) : Int :=
  if minutes < 8 then 0
  else
    let remainder := minutes % 60
    let hours := minutes / 60
    if remainder ≤ 22 then hours * 60 + 15
    else if remainder ≤ 37 then hours * 60 + 30
    else if remainder ≤ 52 then hours * 60 + 45
    else (hours + 1) * 60

/-- C1: `roundToNearest15` follows the stated bucket policy: inputs below
8 round to 0; otherwise, writing `d = 60*h + r` with `r` the remainder in
the hour, `r ∈ [9,22]` gives `60*h + 15`, `r ∈ [23,37]` gives `60*h + 30`,
`r ∈ [38,52]` gives `60*h + 45`, and `r ∈ [53,59]` rolls to the next whole
hour `(h+1)*60`; the boundary examples `7 ↦ 0`, `8 ↦ 15`, `52 ↦ 45`,
`53 ↦ 60` hold, and every result is a multiple of 15 or exactly 0. -/
theorem roundToNearest15_bucket_spec (d : Int) (hd : 0 ≤ d) :
    (d < 8 → roundToNearest15 d = 0) ∧
    (9 ≤ d % 60 → d % 60 ≤ 22 → roundToNearest15 d = (d / 60) * 60 + 15) ∧
    (23 ≤ d % 60 → d % 60 ≤ 37 → roundToNearest15 d = (d / 60) * 60 + 30) ∧
    (38 ≤ d % 60 → d % 60 ≤ 52 → roundToNearest15 d = (d / 60) * 60 + 45) ∧
    (53 ≤ d % 60 → d % 60 ≤ 59 → roundToNearest15 d = (d / 60 + 1) * 60) ∧
    roundToNearest15 (7 : Int) = 0 ∧
    roundToNearest15 (8 : Int) = 15 ∧
    roundToNearest15 (52 : Int) = 45 ∧
    roundToNearest15 (53 : Int) = 60 ∧
    ((15 : Int) ∣ roundToNearest15 d ∨ roundToNearest15 d = 0) := by
  refine ⟨?_, ?_, ?_, ?_, ?_, by decide, by decide, by decide, by decide, ?_⟩ <;>
    · simp only [roundToNearest15]
      split_ifs <;> omega

/-- Witness for `roundToNearest15_bucket_spec` at `d = 75`
(remainder 15, so the 15-bucket clause fires: `75 ↦ 75`). -/
theorem roundToNearest15_bucket_spec_witness :
    (0 : Int) ≤ 75 ∧
    ((75 : Int) < 8 → roundToNearest15 75 = 0) ∧
    (9 ≤ (75 : Int) % 60 → (75 : Int) % 60 ≤ 22 →
      roundToNearest15 75 = ((75 : Int) / 60) * 60 + 15) ∧
    (23 ≤ (75 : Int) % 60 → (75 : Int) % 60 ≤ 37 →
      roundToNearest15 75 = ((75 : Int) / 60) * 60 + 30) ∧
    (38 ≤ (75 : Int) % 60 → (75 : Int) % 60 ≤ 52 →
      roundToNearest15 75 = ((75 : Int) / 60) * 60 + 45) ∧
    (53 ≤ (75 : Int) % 60 → (75 : Int) % 60 ≤ 59 →
      roundToNearest15 75 = ((75 : Int) / 60 + 1) * 60) ∧
    roundToNearest15 (7 : Int) = 0 ∧
    roundToNearest15 (8 : Int) = 15 ∧
    roundToNearest15 (52 : Int) = 45 ∧
    roundToNearest15 (53 : Int) = 60 ∧
    ((15 : Int) ∣ roundToNearest15 75 ∨ roundToNearest15 75 = 0) :=
  ⟨by decide, roundToNearest15_bucket_spec 75 (by decide)⟩

/-- C10: exact whole hours land in the 15-minute bucket of the next hour:
for every positive `k`, `roundToNearest15 (60*k) = 60*k + 15` (so
`60 ↦ 75` and `120 ↦ 135`), and consequently `roundToNearest15` is not
idempotent on its own outputs: `roundToNearest15 53 = 60` but
`roundToNearest15 (roundToNearest15 53) = 75 ≠ 60`. -/
theorem roundToNearest15_whole_hours_not_idempotent (k : Int) (hk : 1 ≤ k) :
    roundToNearest15 (60 * k) = 60 * k + 15 ∧
    roundToNearest15 (60 : Int) = 75 ∧
    roundToNearest15 (120 : Int) = 135 ∧
    roundToNearest15 (roundToNearest15 (53 : Int)) = 75 ∧
    roundToNearest15 (roundToNearest15 (53 : Int)) ≠ roundToNearest15 (53 : Int) := by
  refine ⟨?_, by decide, by decide, by decide, by decide⟩
  simp only [roundToNearest15]
  split_ifs <;> omega

/-- Witness for `roundToNearest15_whole_hours_not_idempotent` at `k = 2`. -/
theorem roundToNearest15_whole_hours_not_idempotent_witness :
    (1 : Int) ≤ 2 ∧
    (roundToNearest15 (60 * 2) = 60 * 2 + 15 ∧
     roundToNearest15 (60 : Int) = 75 ∧
     roundToNearest15 (120 : Int) = 135 ∧
     roundToNearest15 (roundToNearest15 (53 : Int)) = 75 ∧
     roundToNearest15 (roundToNearest15 (53 : Int)) ≠ roundToNearest15 (53 : Int)) :=
  ⟨by decide, roundToNearest15_whole_hours_not_idempotent 2 (by decide)⟩

/-! ### Calendar dates

Log entries store a JavaScript `Date` parsed from a `YYYY-MM-DD` string
(UTC midnight).  Such values are modelled by their civil calendar triple;
`none : Option CivilDate` models an Invalid Date (`NaN` time value).
Comparing two such `Date`s by millisecond value is equivalent to
comparing the triples lexicographically. -/

/-- A civil calendar date (proleptic Gregorian, years 0–9999). -/
structure CivilDate where
  y : Nat
  m : Nat
  d : Nat
deriving DecidableEq, Repr

/-- Lexicographic (= millisecond) order on civil dates. -/
def civilLe (a b : CivilDate) : Bool :=
  decide (a.y < b.y) ||
    (decide (a.y = b.y) &&
      (decide (a.m < b.m) || (decide (a.m = b.m) && decide (a.d ≤ b.d))))

/-- Gregorian leap-year test. -/
def isLeap (y : Nat) : Bool := (y % 4 = 0 ∧ y % 100 ≠ 0) ∨ y % 400 = 0

/-- Number of days in a month. -/
def daysInMonth (y m : Nat) : Nat :=
  if m = 2 then (if isLeap y then 29 else 28)
  else if m = 4 ∨ m = 6 ∨ m = 9 ∨ m = 11 then 30
  else 31

/-- A calendar-valid date that fits the `YYYY-MM-DD` basic format (the
range the JavaScript date-time string format accepts without an expanded
year). -/
def validCivil (c : CivilDate) : Bool :=
  1 ≤ c.m ∧ c.m ≤ 12 ∧ 1 ≤ c.d ∧ c.d ≤ daysInMonth c.y c.m ∧ c.y ≤ 9999

/-- Left-pad a digit string with zeros to width `k`. -/
def padZeros (k : Nat) (s : Str) : Str :=
  List.replicate (k - s.length) '0' ++ s

/-- The `YYYY-MM-DD` rendering of a civil date, as produced by
`Date.prototype.toISOString().split('T')[0]`. -/
def formatCivil (c : CivilDate) : Str :=
  padZeros 4 (natToChars c.y) ++ '-' ::
    (padZeros 2 (natToChars c.m) ++ '-' :: padZeros 2 (natToChars c.d))

/-- Parse a `YYYY-MM-DD` date-only string the way `new Date(s)` does:
the shape must match exactly and the triple must be calendar-valid,
otherwise the result is an Invalid Date (`none`). -/
def parseDateChars (s : Str) : Option CivilDate :=
  match s with
  | [y1, y2, y3, y4, h1, m1, m2, h2, d1, d2] =>
    if h1 = '-' && h2 = '-' && ([y1, y2, y3, y4, m1, m2, d1, d2].all Char.isDigit) then
      let c : CivilDate :=
        ⟨charsVal [y1, y2, y3, y4], charsVal [m1, m2], charsVal [d1, d2]⟩
      if validCivil c then some c else none
    else none
  | _ => none

/-- Days since 1970-01-01 of a civil date (Howard Hinnant's
`days_from_civil` algorithm; all divisions act on nonnegative values for
the year range modelled here). -/
def daysFromCivil (c : CivilDate) : Int :=
  let y : Int := if c.m ≤ 2 then (c.y : Int) - 1 else (c.y : Int)
  let era : Int := Int.fdiv y 400
  let yoe : Int := y - era * 400
  let mp : Int := if 2 < c.m then (c.m : Int) - 3 else (c.m : Int) + 9
  let doy : Int := (153 * mp + 2) / 5 + (c.d : Int) - 1
  let doe : Int := yoe * 365 + yoe / 4 - yoe / 100 + doy
  era * 146097 + doe - 719468

/-- Civil date of a day count since 1970-01-01 (Hinnant's `civil_from_days`). -/
def civilFromDays (z0 : Int) : CivilDate :=
  let z : Int := z0 + 719468
  let era : Int := Int.fdiv z 146097
  let doe : Int := z - era * 146097
  let yoe : Int := (doe - doe / 1460 + doe / 36524 - doe / 146096) / 365
  let y : Int := yoe + era * 400
  let doy : Int := doe - (365 * yoe + yoe / 4 - yoe / 100)
  let mp : Int := (5 * doy + 2) / 153
  let d : Int := doy - (153 * mp + 2) / 5 + 1
  let m : Int := if mp < 10 then mp + 3 else mp - 9
  ⟨(if m ≤ 2 then y + 1 else y).toNat, m.toNat, d.toNat⟩

/-- UTC calendar date of a millisecond timestamp
(`Date.prototype.toISOString().split('T')[0]`). -/
def civilOfMs (ms : Int) : CivilDate := civilFromDays (Int.fdiv ms 86400000)

/-- Parse a full `YYYY-MM-DDTHH:MM:SS.mmmZ` timestamp to milliseconds
since the epoch, as `new Date(s)` does for the ISO format the tracker
writes (`Date.prototype.toISOString`). -/
def parseIso24 (s : Str) : Option Int :=
  match s with
  | [y1, y2, y3, y4, q1, m1, m2, q2, d1, d2, t, h1, h2, c1, i1, i2, c2,
     s1, s2, dot, f1, f2, f3, z] =>
    if q1 = '-' && q2 = '-' && t = 'T' && c1 = ':' && c2 = ':' &&
        dot = '.' && z = 'Z' &&
        ([y1, y2, y3, y4, m1, m2, d1, d2, h1, h2, i1, i2, s1, s2, f1, f2, f3].all
          Char.isDigit) then
      let c : CivilDate :=
        ⟨charsVal [y1, y2, y3, y4], charsVal [m1, m2], charsVal [d1, d2]⟩
      let hh := charsVal [h1, h2]
      let mi := charsVal [i1, i2]
      let ss := charsVal [s1, s2]
      let ff := charsVal [f1, f2, f3]
      if validCivil c && hh < 24 && mi < 60 && ss < 60 then
        some (daysFromCivil c * 86400000 +
          (hh : Int) * 3600000 + (mi : Int) * 60000 + (ss : Int) * 1000 + (ff : Int))
      else none
    else none
  | _ => none

/-- `new Date(s)` as a millisecond value, for the two string shapes the
tracker itself produces (date-only and full ISO-`Z`); other shapes are
modelled as Invalid Date. -/
def jsParseMs (s : Str) : Option Int :=
  match parseDateChars s with
  | some c => some (daysFromCivil c * 86400000)
  | none => parseIso24 s

/-- `new Date(s)` as a calendar date (for values the code only ever
compares date-wise), for the same two string shapes. -/
def jsParseCivil (s : Str) : Option CivilDate :=
  match parseDateChars s with
  | some c => some c
  | none => (parseIso24 s).map civilOfMs

/-- `Math.round((endMs - startMs) / (1000 * 60))`: elapsed minutes,
rounded half-up (towards +infinity), computed exactly over `Int`. -/
def minutesBetween (startMs endMs : Int) : Int :=
  Int.fdiv (2 * (endMs - startMs) + 60000) 120000

/-! ### `SessionEntry` (src/lib/models/SessionEntry.js) -/

/-- A session-based log entry.  `description`/`sessionId` use `none` for
JavaScript `null`/`undefined`; `originalLine` is the raw CSV line the
entry was parsed from, when it came from the file. -/
structure SessionEntry where
  project : Str
  date : Option CivilDate
  duration : Int
  description : Option Str
  sessionId : Option Str
  originalLine : Option Str
deriving DecidableEq, Repr

/-- JavaScript truthiness of a nullable string: `null`/`undefined` and
the empty string are falsy. -/
def jsTruthyStr (o : Option Str) : Bool :=
  match o with
  | none => false
  | some s => !s.isEmpty

/-- `SessionEntry.generateSessionId(type)` produces
`type + '_' + timestamp36 + '_' + random`; the unpredictable tail is
abstracted as a `seed` parameter. -/
def generateSessionId (type seed : Str) : Str := type ++ '_' :: seed

/-- `get isSessionEntry(): this.#sessionId?.startsWith('sess_')`. -/
def SessionEntry.isSessionEntry (e : SessionEntry) : Bool :=
  match e.sessionId with
  | some s => (str ("sess_")).isPrefixOf s
  | none => false

/-- `get isManualEntry(): this.#sessionId?.startsWith('manual_')`. -/
def SessionEntry.isManualEntry (e : SessionEntry) : Bool :=
  match e.sessionId with
  | some s => (str ("manual_")).isPrefixOf s
  | none => false

/-- `SessionEntry.fromCSVLine(line)`:

```js
if (!line?.trim()) return null;
const parts = line.split(',');
const [project, date, duration, description, sessionId] = parts;
if (!project || !date || !duration) return null;
const durationNum = parseInt(duration);
if (isNaN(durationNum) || durationNum <= 0) return null;
const desc = description === '' ? null : description;
const sessId = sessionId === '' ? null : sessionId;
return new SessionEntry(project, date, durationNum, desc, sessId, line);
```

A missing column (`undefined`) and an empty column both map to `none`
for the optional fields (with `undefined` the constructor default
`null` applies).  The constructor stores `new Date(date)`, modelled by
`jsParseCivil`. -/
def SessionEntry.fromCSVLine (line : Str) : Option SessionEntry :=
  if trimChars line = [] then none
  else
    let parts := splitOnChar ',' line
    let project := parts.getD 0 []
    let date := parts.getD 1 []
    let duration := parts.getD 2 []
    if project = [] ∨ date = [] ∨ duration = [] then none
    else
      match jsParseInt duration with
      | none => none
      | some durationNum =>
        if durationNum ≤ 0 then none
        else
          some
            { project := project
              date := jsParseCivil date
              duration := durationNum
              description := match parts.getD 3 [] with | [] => none | s => some s
              sessionId := match parts.getD 4 [] with | [] => none | s => some s
              originalLine := some line }

/-- `SessionEntry.prototype.toCSVLine()`:
`project,YYYY-MM-DD,duration,description-or-blank,sessionId-or-blank`.
On an entry whose date is an Invalid Date, `toISOString()` would throw a
`RangeError`; the model renders the date field as empty there (the
claims only exercise valid dates). -/
def SessionEntry.toCSVLine (e : SessionEntry) : Str :=
  e.project ++ ',' ::
    ((match e.date with | some c => formatCivil c | none => []) ++ ',' ::
      (intToChars e.duration ++ ',' ::
        (e.description.getD [] ++ ',' :: e.sessionId.getD [])))

/-- `SessionEntry.prototype.matchesProject(filter)`: case-insensitive
substring test; a falsy filter matches everything. -/
def SessionEntry.matchesProject (e : SessionEntry) (filter : Option Str) : Bool :=
  if jsTruthyStr filter then
    strContains (toLowerStr e.project) (toLowerStr (filter.getD []))
  else true

/-- `SessionEntry.prototype.isWithinDateRange(cutoffDate)`:
`this.#date >= cutoffDate`; an Invalid Date compares false. -/
def SessionEntry.isWithinDateRange (e : SessionEntry) (cutoff : CivilDate) : Bool :=
  match e.date with
  | some c => civilLe cutoff c
  | none => false

/-! ### `TimeEntry` (src/lib/models/TimeEntry.js, legacy format) -/

/-- A legacy log entry carrying raw start/end timestamps (millisecond
values; `none` models an Invalid Date). -/
structure TimeEntry where
  project : Str
  startTime : Option Int
  endTime : Option Int
  originalLine : Option Str
deriving DecidableEq, Repr

/-- `get duration()`: `Math.round((end - start) / 60000)`; `none` models
the `NaN` produced when either timestamp is invalid. -/
def TimeEntry.duration (te : TimeEntry) : Option Int :=
  match te.startTime, te.endTime with
  | some s, some e => some (minutesBetween s e)
  | _, _ => none

/-- `TimeEntry.fromCSVLine(line)`:

```js
if (!line?.trim()) return null;
const [project, startTime, endTime] = line.split(',');
if (!project || !startTime || !endTime) return null;
const minutes = Math.round((new Date(endTime) - new Date(startTime)) / 60000);
if (isNaN(minutes) || minutes <= 0) return null;
return new TimeEntry(project, startTime, endTime, line);
```
-/
def TimeEntry.fromCSVLine (line : Str) : Option TimeEntry :=
  if trimChars line = [] then none
  else
    let parts := splitOnChar ',' line
    let project := parts.getD 0 []
    let startTime := parts.getD 1 []
    let endTime := parts.getD 2 []
    if project = [] ∨ startTime = [] ∨ endTime = [] then none
    else
      match jsParseMs startTime, jsParseMs endTime with
      | some s, some e =>
        if minutesBetween s e ≤ 0 then none
        else some ⟨project, some s, some e, some line⟩
      | _, _ => none

/-- Modelled from the spec: `SessionEntry.fromTimeEntry` is called by
`FileManager.readAllLogEntries` but its definition is not among the
sources.  Per the spec (§6 and end-to-end scenario D), a legacy
3-column row is "converted at read time" to a `date,duration_minutes`
entry whose duration equals `round((end-start)/60000)` minutes, "with a
derived session id distinguishing it as session-provenance": the date is
the calendar date of the start timestamp, the duration is the legacy
entry's computed duration, and the derived session id carries the
`sess_` provenance tag. -/
def SessionEntry.fromTimeEntry (te : TimeEntry) : SessionEntry :=
  { project := te.project
    date := te.startTime.map civilOfMs
    duration := (te.duration).getD 0
    description := none
    sessionId := some (generateSessionId (str ("sess")) (str ("migrated")))
    originalLine := none }

/-! ### `FileManager` (src/lib/services/FileManager.js)

A file is `Option (List Str)`: `none` when missing, otherwise its lines. -/

/-- The new-format CSV header line. -/
def csvHeader : Str := str ("project,date,duration_minutes,description,session_id")

/-- Header substring used to detect the new format. -/
def newFormatMarker : Str := str ("duration_minutes,description,session_id")

/-- Sort comparator for `entries.sort((a, b) => a.date - b.date)`.
Entries with an Invalid Date produce a `NaN` comparator value in
JavaScript, which leaves their order implementation-defined; the model
orders them first.  On valid dates this is the millisecond order. -/
def entryLe (a b : SessionEntry) : Bool :=
  match a.date, b.date with
  | none, _ => true
  | some _, none => false
  | some x, some y => civilLe x y

/-- `FileManager.readAllLogEntries()`: missing file is an empty list;
the first line decides old/new format; each subsequent line is parsed
independently (unparsable lines yield nothing); the result is sorted
ascending by date. -/
def readAllLogEntries (file : Option (List Str)) : List SessionEntry :=
  match file with
  | none => []
  | some [] => []
  | some (header :: rest) =>
    let isNewFormat := strContains header newFormatMarker
    let logEntries := rest.filterMap (fun line =>
      if isNewFormat then SessionEntry.fromCSVLine line
      else (TimeEntry.fromCSVLine line).map SessionEntry.fromTimeEntry)
    logEntries.mergeSort entryLe

/-- `FileManager.writeLogEntries(entries)`: header plus
`entry.originalLine ?? entry.toCSVLine()` per entry. -/
def writeLogEntries (entries : List SessionEntry) : Option (List Str) :=
  some (csvHeader :: entries.map (fun e => e.originalLine.getD e.toCSVLine))

/-! ### `TimeCalculator` filters (src/lib/services/TimeCalculator.js) -/

/-- The period keywords accepted by the calculator. -/
inductive Period
  | day
  | week
  | month
  | all
deriving DecidableEq, Repr

/-- `TimeCalculator.filterEntriesByPeriod(entries, period, now)`:
`"all"` returns the entries unchanged, otherwise entries whose date is
at or after `getCutoffDate(now, period)` are kept.  The cutoff (a local
midnight computed from the wall clock) is abstracted as a `cutoff`
parameter: entry dates are calendar dates, and any millisecond cutoff
filters them exactly like some calendar-date cutoff. -/
def filterEntriesByPeriod (entries : List SessionEntry) (period : Period)
    (cutoff : CivilDate) : List SessionEntry :=
  match period with
  | .all => entries
  | _ => entries.filter (fun e => e.isWithinDateRange cutoff)

/-- `TimeCalculator.filterEntriesByProject(entries, projectFilter)`:
a falsy filter keeps everything, otherwise case-insensitive substring
match on the project name. -/
def filterEntriesByProject (entries : List SessionEntry) (filter : Option Str) :
    List SessionEntry :=
  if jsTruthyStr filter then entries.filter (fun e => e.matchesProject filter)
  else entries

/-! ### `TimeTracker` orchestrator (current auto-stop variant)

The two persisted files are modelled as a pure state: the log as its
list of entries and `state.json` as an optional `SessionState`. -/

/-- The persisted `state.json` singleton
(`{ project, startTime, description, sessionId }`); the ISO `startTime`
string is modelled by its millisecond value. -/
structure SessionState where
  project : Str
  startTime : Int
  description : Option Str
  sessionId : Option Str
deriving DecidableEq, Repr

/-- The tracker's persistent state: the entry log plus the optional
active session. -/
structure TrackerState where
  log : List SessionEntry
  state : Option SessionState
deriving DecidableEq, Repr

/-- The `SessionEntry` a stopping session appends:
`new SessionEntry(project, startTime date-part, finalDuration,
description, sessionId)`. -/
def sessionEntryOf (st : SessionState) (finalDuration : Int) : SessionEntry :=
  { project := st.project
    date := some (civilOfMs st.startTime)
    duration := finalDuration
    description := st.description
    sessionId := st.sessionId
    originalLine := none }

/-- `TimeTracker.#autoStop(currentState, options)`: compute the elapsed
minutes, round unless `noRound`, and append a log entry only when the
final duration is positive.  The session state itself is left for the
caller (`start`) to overwrite. -/
def autoStop (tr : TrackerState) (st : SessionState) (noRound : Bool) (now : Int) :
    TrackerState :=
  let durationMinutes := minutesBetween st.startTime now
  let finalDuration := if noRound then durationMinutes else roundToNearest15 durationMinutes
  if 0 < finalDuration then { tr with log := tr.log ++ [sessionEntryOf st finalDuration] }
  else tr

/-- `TimeTracker.start(project, description, options)`: requires a
truthy project name; auto-stops any active session; saves a new state
with a fresh `sess_`-prefixed session id (`generateSessionId('sess')`,
whose unpredictable tail is the `seed` parameter) and `startTime = now`. -/
def start (tr : TrackerState) (project : Str) (description : Option Str)
    (noRound : Bool) (now : Int) (seed : Str) : Except Str TrackerState :=
  if project = [] then .error (str ("Project name is required"))
  else
    let tr1 :=
      match tr.state with
      | some st => if st.project ≠ [] then autoStop tr st noRound now else tr
      | none => tr
    .ok { log := tr1.log
          state := some { project := project
                          startTime := now
                          description := description
                          sessionId := some (generateSessionId (str ("sess")) seed) } }

/-- `TimeTracker.stop(options)`: errors when no active session;
otherwise appends an entry when the (possibly rounded) duration is
positive, and always clears the session state. -/
def stop (tr : TrackerState) (noRound : Bool) (now : Int) : Except Str TrackerState :=
  match tr.state with
  | none => .error (str ("No active tracking session found"))
  | some st =>
    if st.project = [] then .error (str ("No active tracking session found"))
    else
      let durationMinutes := minutesBetween st.startTime now
      let finalDuration :=
        if noRound then durationMinutes else roundToNearest15 durationMinutes
      let log' :=
        if 0 < finalDuration then tr.log ++ [sessionEntryOf st finalDuration] else tr.log
      .ok { log := log', state := none }

/-- Date equality by `getTime()` value: an Invalid Date (`NaN`) is not
equal to anything, itself included. -/
def dateTimeEq (a b : Option CivilDate) : Bool :=
  match a, b with
  | some x, some y => x = y
  | _, _ => false

/-- The per-entry keep predicate of `TimeTracker.deleteEntry`: prefer
the exact original-line comparison when both lines are truthy, else fall
back to project + date + duration equality. -/
def keepOnDeleteEntry (entryToDelete entry : SessionEntry) : Bool :=
  if jsTruthyStr entryToDelete.originalLine && jsTruthyStr entry.originalLine then
    entry.originalLine ≠ entryToDelete.originalLine
  else
    !(decide (entry.project = entryToDelete.project) &&
      dateTimeEq entry.date entryToDelete.date &&
      decide (entry.duration = entryToDelete.duration))

/-- `TimeTracker.deleteEntry(index, period, ...)`: a 1-based index into
the period-filtered view; out-of-range indices error with the valid
range; otherwise the full log is rewritten without the rows matching the
selected entry, which is also returned.  (The preceding `isNaN(index)`
guard is command-line argument validation and is outside the model.) -/
def deleteEntry (allEntries : List SessionEntry) (index : Int) (period : Period)
    (cutoff : CivilDate) : Except Str (List SessionEntry × SessionEntry) :=
  let entriesForPeriod := filterEntriesByPeriod allEntries period cutoff
  if index < 1 ∨ (entriesForPeriod.length : Int) < index then
    .error (str ("Invalid index. Use a number between 1 and ") ++
      natToChars entriesForPeriod.length)
  else
    match entriesForPeriod.get? (index - 1).toNat with
    | none =>
      .error (str ("Invalid index. Use a number between 1 and ") ++
        natToChars entriesForPeriod.length)
    | some entryToDelete =>
      .ok (allEntries.filter (fun entry => keepOnDeleteEntry entryToDelete entry),
        entryToDelete)

/-! ### `ProjectManager` (src/lib/services/ProjectManager.js) -/

/-- `ProjectManager.deleteProject(projectName)`: exact case-insensitive
match; zero matches is a fatal error, otherwise the log is rewritten
without the matching entries.  Returns (remaining log, deleted entries). -/
def deleteProject (allEntries : List SessionEntry) (projectName : Str) :
    Except Str (List SessionEntry × List SessionEntry) :=
  let matchingEntries :=
    allEntries.filter (fun e => toLowerStr e.project = toLowerStr projectName)
  if matchingEntries.length = 0 then
    .error (str ("Project \"") ++ projectName ++ str ("\" not found"))
  else
    .ok (allEntries.filter (fun e => ¬ toLowerStr e.project = toLowerStr projectName),
      matchingEntries)

/-- The option bag of `deleteByProject` (`--project`, `--last`,
`--today`, `--week`, `--month`). -/
structure DeleteByOptions where
  project : Option Str
  last : Bool
  today : Bool
  week : Bool
  month : Bool
deriving DecidableEq, Repr

/-- The candidate-match test of `deleteByProject`'s rewrite:
`deleteEntry.originalLine === entry.originalLine ||
(project, date-getTime, duration all equal)`.  Note `null === null` is
true for the original lines, while `NaN === NaN` is false for the dates. -/
def matchesForBulkDelete (d e : SessionEntry) : Bool :=
  d.originalLine = e.originalLine ∨
    (d.project = e.project ∧ dateTimeEq d.date e.date ∧ d.duration = e.duration)

/-- The rewrite step of `deleteByProject`: keep the entries matching no
candidate. -/
def removeMatching (allEntries toDelete : List SessionEntry) : List SessionEntry :=
  allEntries.filter (fun entry => !toDelete.any (fun d => matchesForBulkDelete d entry))

/-- `ProjectManager.deleteByProject(options)`: narrow by project
substring, then by `last` or one period; a narrowing that leaves nothing
is a fatal error naming the excluding predicate(s); otherwise rewrite
the log without every entry matching a candidate.  Returns
(remaining log, deleted candidates). -/
def deleteByProject (allEntries : List SessionEntry) (opts : DeleteByOptions)
    (cutoff : CivilDate) : Except Str (List SessionEntry × List SessionEntry) :=
  if allEntries.length = 0 then .error (str ("No log entries found"))
  else
    let afterProject := filterEntriesByProject allEntries opts.project
    if jsTruthyStr opts.project ∧ afterProject.length = 0 then
      .error (str ("No entries found for project matching: ") ++ opts.project.getD [])
    else if opts.last then
      let toDelete := match afterProject.getLast? with | some e => [e] | none => []
      .ok (removeMatching allEntries toDelete, toDelete)
    else if opts.today ∨ opts.week ∨ opts.month then
      let period :=
        if opts.today then Period.day else if opts.week then Period.week else Period.month
      let toDelete := filterEntriesByPeriod afterProject period cutoff
      if toDelete.length = 0 then
        let timeRange :=
          if opts.today then str ("today")
          else if opts.week then str ("this week")
          else str ("this month")
        let projectPart :=
          if jsTruthyStr opts.project then
            str (" for project matching \"") ++ opts.project.getD [] ++ str ("\"")
          else []
        .error (str ("No entries found ") ++ timeRange ++ projectPart)
      else .ok (removeMatching allEntries toDelete, toDelete)
    else
      .ok (removeMatching allEntries afterProject, afterProject)

/-! ### `ProjectHierarchy` (src/lib/services/ProjectHierarchy.js) -/

/-- `ProjectHierarchy.parseProject(project)`:
`project.split('/').filter(p => p.trim().length > 0)`. -/
def parseProject (project : Str) : List Str :=
  (splitOnChar '/' project).filter (fun p => 0 < (trimChars p).length)

/-- `ProjectHierarchy.getParent(project)`: `null` without a parent, else
the `/`-joined path without its last component. -/
def getParent (project : Str) : Option Str :=
  let parts := parseProject project
  if parts.length ≤ 1 then none
  else some (joinChar '/' parts.dropLast)

/-- `ProjectHierarchy.isParentOf(parent, child)`: the parent's path
components are a strict prefix of the child's. -/
def isParentOf (parent child : Str) : Bool :=
  if parent = child then false
  else
    let parentParts := parseProject parent
    let childParts := parseProject child
    if childParts.length ≤ parentParts.length then false
    else parentParts.isPrefixOf childParts

/-- The keys (project names) of a flat stats map, in insertion order.
The flat stats are modelled as an association list
`project ↦ direct minutes` (the `entryCount`/`lastUsed` fields are
copied through by the hierarchy code and play no role in the totals). -/
def hierKeys (flat : List (Str × Int)) : List Str := flat.map (·.1)

/-- `flatStats[project].totalMinutes` — the direct minutes of a key. -/
def hierDirect (flat : List (Str × Int)) (p : Str) : Int :=
  (((flat.find? (fun kv => kv.1 = p)).map (·.2)).getD 0)

/-- The `children` array built by `calculateHierarchicalStats`: the keys
whose `getParent` is this project (pushed in key order; only keys
present in the map get a parent link). -/
def childrenOf (flat : List (Str × Int)) (p : Str) : List Str :=
  (hierKeys flat).filter (fun q => getParent q = some p)

/-- The root keys: no parent, or the parent path has no entry. -/
def rootKeys (flat : List (Str × Int)) : List Str :=
  (hierKeys flat).filter (fun p =>
    match getParent p with
    | none => true
    | some par => !(hierKeys flat).contains par)

/-- Largest path-component count among the keys. -/
def maxKeyDepth (flat : List (Str × Int)) : Nat :=
  ((hierKeys flat).map (fun p => (parseProject p).length)).foldr max 0

/-- `calculateTotalMinutes(project)`: the node's direct minutes plus the
recursively computed totals of its children.  The source recursion is
along child links, each of which adds exactly one path component
(`getParent_length` below), so running it with a fuel of one more than
the deepest key makes it total without the fuel ever running out on a
node reachable from a key. -/
def totalAux (flat : List (Str × Int)) (fuel : Nat) (p : Str) : Int :=
  match fuel with
  | 0 => hierDirect flat p
  | fuel + 1 =>
    ((childrenOf flat p).map (totalAux flat fuel)).foldl (· + ·) (hierDirect flat p)

/-- The rolled-up `totalMinutes` that `calculateHierarchicalStats`
assigns to a key: every key is reached exactly once from its root via
child links (each non-root's parent is a present key, so the parent
chain ends at a root), so its total is `calculateTotalMinutes` of the
node. -/
def hierTotal (flat : List (Str × Int)) (p : Str) : Int :=
  totalAux flat (maxKeyDepth flat + 1 - (parseProject p).length) p

/-! ### Validity and normalization for the CSV round trip (C7) -/

/-- A blank optional field normalizes to `null` when read back. -/
def blankToNone (o : Option Str) : Option Str :=
  match o with
  | some [] => none
  | x => x

/-- What a freshly created entry looks like after one write/read cycle:
the five data fields survive except that blank optional fields become
`null`, and the entry now carries the CSV line it was read from. -/
def normalizeEntry (e : SessionEntry) : SessionEntry :=
  { project := e.project
    date := e.date
    duration := e.duration
    description := blankToNone e.description
    sessionId := blankToNone e.sessionId
    originalLine := some e.toCSVLine }

/-- A freshly created entry that serializes faithfully: truthy project,
comma- and newline-free text fields, a calendar-valid date, a positive
duration, and no raw line of its own. -/
def validEntryB (e : SessionEntry) : Bool :=
  !e.project.isEmpty &&
  e.project.all (fun c => c ≠ ',' && c ≠ '\n') &&
  (match e.date with | some d => validCivil d | none => false) &&
  decide (0 < e.duration) &&
  (match e.description with
    | some s => s.all (fun c => c ≠ ',' && c ≠ '\n')
    | none => true) &&
  (match e.sessionId with
    | some s => s.all (fun c => c ≠ ',' && c ≠ '\n')
    | none => true) &&
  e.originalLine.isNone

/-! ### Concrete example data used by witnesses and counterexamples -/

/-- Example entry `alpha, 2025-08-16, 30`. -/
def exEntryA : SessionEntry :=
  ⟨str ("alpha"), some ⟨2025, 8, 16⟩, 30, none, none,
    some (str ("alpha,2025-08-16,30,,"))⟩

/-- Example entry `beta, 2025-08-17, 45`. -/
def exEntryB : SessionEntry :=
  ⟨str ("beta"), some ⟨2025, 8, 17⟩, 45, none, none,
    some (str ("beta,2025-08-17,45,,"))⟩

/-- A freshly created (never yet written) entry with both optional
fields populated. -/
def exFresh : SessionEntry :=
  ⟨str ("proj"), some ⟨2025, 8, 16⟩, 30, some (str ("notes")),
    some (str ("manual_1")), none⟩

/-- One of two rows agreeing on project, date and duration but differing
in description (and hence raw line). -/
def exDupA : SessionEntry :=
  ⟨str ("p"), some ⟨2025, 1, 2⟩, 30, some (str ("x")), none,
    some (str ("p,2025-01-02,30,x,"))⟩

/-- The other of the two value-duplicate rows (blank description). -/
def exDupB : SessionEntry :=
  ⟨str ("p"), some ⟨2025, 1, 2⟩, 30, none, none,
    some (str ("p,2025-01-02,30,,"))⟩

/-! ### Splitting/joining lemmas (shared by the hierarchy and the CSV
round-trip proofs) -/

theorem splitOnChar_ne_nil (c : Char) (s : Str) : splitOnChar c s ≠ [] := by
  induction s with
  | nil => simp [splitOnChar]
  | cons x xs ih =>
    simp only [splitOnChar]
    split
    · simp
    · cases h : splitOnChar c xs with
      | nil => exact absurd h ih
      | cons hd tl => simp

theorem splitOnChar_not_mem {c : Char} {s : Str} :
    ∀ p ∈ splitOnChar c s, c ∉ p := by
  induction s with
  | nil =>
    intro p hp
    rw [show splitOnChar c [] = [[]] from rfl, List.mem_singleton] at hp
    subst hp
    exact List.not_mem_nil c
  | cons x xs ih =>
    intro p hp
    simp only [splitOnChar] at hp
    by_cases hx : x = c
    · rw [if_pos hx, List.mem_cons] at hp
      rcases hp with hp | hp
      · subst hp
        exact List.not_mem_nil c
      · exact ih p hp
    · rw [if_neg hx] at hp
      cases h : splitOnChar c xs with
      | nil => exact absurd h (splitOnChar_ne_nil c xs)
      | cons hd tl =>
        rw [h, List.mem_cons] at hp
        rcases hp with hp | hp
        · subst hp
          intro hc
          rcases List.mem_cons.mp hc with hc | hc
          · exact hx hc.symm
          · exact ih hd (h ▸ List.mem_cons_self hd tl) hc
        · exact ih p (h ▸ List.mem_cons_of_mem hd hp)

theorem splitOnChar_no_sep {c : Char} {a : Str} (h : c ∉ a) :
    splitOnChar c a = [a] := by
  induction a with
  | nil => rfl
  | cons x xs ih =>
    have hx : ¬ x = c := fun hxc => h (hxc ▸ List.mem_cons_self x xs)
    have hxs : c ∉ xs := fun hc => h (List.mem_cons_of_mem x hc)
    simp only [splitOnChar, if_neg hx, ih hxs]

theorem splitOnChar_append {c : Char} {a : Str} (rest : Str) (h : c ∉ a) :
    splitOnChar c (a ++ c :: rest) = a :: splitOnChar c rest := by
  induction a with
  | nil => simp [splitOnChar]
  | cons x xs ih =>
    have hx : ¬ x = c := fun hxc => h (hxc ▸ List.mem_cons_self x xs)
    have hxs : c ∉ xs := fun hc => h (List.mem_cons_of_mem x hc)
    rw [List.cons_append]
    simp only [splitOnChar, if_neg hx]
    rw [ih hxs]

theorem splitOnChar_joinChar {c : Char} {l : List Str}
    (hsep : ∀ p ∈ l, c ∉ p) (hne : l ≠ []) :
    splitOnChar c (joinChar c l) = l := by
  induction l with
  | nil => exact absurd rfl hne
  | cons x xs ih =>
    cases xs with
    | nil =>
      simp only [joinChar]
      exact splitOnChar_no_sep (hsep x (List.mem_cons_self x []))
    | cons y ys =>
      simp only [joinChar]
      rw [splitOnChar_append _ (hsep x (List.mem_cons_self x (y :: ys)))]
      rw [ih (fun p hp => hsep p (List.mem_cons_of_mem x hp)) (by simp)]

theorem parseProject_mem {q p : Str} (hp : p ∈ parseProject q) :
    '/' ∉ p ∧ 0 < (trimChars p).length := by
  simp only [parseProject, List.mem_filter, decide_eq_true_eq] at hp
  exact ⟨splitOnChar_not_mem p hp.1, hp.2⟩

theorem parseProject_joinChar_dropLast {q : Str}
    (h2 : 2 ≤ (parseProject q).length) :
    parseProject (joinChar '/' (parseProject q).dropLast) =
      (parseProject q).dropLast := by
  have hsub : ∀ p ∈ (parseProject q).dropLast, p ∈ parseProject q := by
    intro p hp
    exact List.dropLast_subset _ hp
  have hne : (parseProject q).dropLast ≠ [] := by
    have := List.length_dropLast (parseProject q)
    intro hnil
    rw [hnil] at this
    simp at this
    omega
  show List.filter (fun p => decide (0 < (trimChars p).length))
      (splitOnChar '/' (joinChar '/' (parseProject q).dropLast)) =
    (parseProject q).dropLast
  rw [splitOnChar_joinChar (fun p hp => (parseProject_mem (hsub p hp)).1) hne]
  exact List.filter_eq_self.mpr
    (fun p hp => decide_eq_true (parseProject_mem (hsub p hp)).2)

theorem getParent_parse {q par : Str} (h : getParent q = some par) :
    parseProject par = (parseProject q).dropLast ∧
      2 ≤ (parseProject q).length := by
  unfold getParent at h
  by_cases hl : (parseProject q).length ≤ 1
  · simp [hl] at h
  · have h2 : 2 ≤ (parseProject q).length := by omega
    simp only [if_neg hl, Option.some.injEq] at h
    exact ⟨h ▸ parseProject_joinChar_dropLast h2, h2⟩

theorem getParent_length {q par : Str} (h : getParent q = some par) :
    (parseProject q).length = (parseProject par).length + 1 := by
  obtain ⟨hpar, h2⟩ := getParent_parse h
  rw [hpar, List.length_dropLast]
  omega

theorem childrenOf_parent {flat : List (Str × Int)} {p q : Str}
    (h : q ∈ childrenOf flat p) : getParent q = some p := by
  simp only [childrenOf, List.mem_filter, decide_eq_true_eq] at h
  exact h.2


/-! ### Claim theorems: the orchestrator state machine -/

/-- C3: `stop()` errors with "No active tracking session found" exactly
when there is no active session (a missing state or one with a blank
project), and then changes nothing; otherwise it computes the elapsed
minutes as `round((now − startTime)/60000)`, applies the 15-minute
rounding unless `noRound` disables it, appends the session's log entry
iff the (possibly rounded) duration is positive, and always clears the
session state. -/
theorem stop_spec (tr : TrackerState) (noRound : Bool) (now : Int) :
    ((∃ m, stop tr noRound now = .error m) ↔
      tr.state = none ∨ ∃ st, tr.state = some st ∧ st.project = []) ∧
    (tr.state = none →
      stop tr noRound now = .error (str ("No active tracking session found"))) ∧
    (∀ st, tr.state = some st → st.project = [] →
      stop tr noRound now = .error (str ("No active tracking session found"))) ∧
    (∀ st, tr.state = some st → st.project ≠ [] →
      ∃ tr', stop tr noRound now = .ok tr' ∧
        tr'.state = none ∧
        (0 < (if noRound then minutesBetween st.startTime now
              else roundToNearest15 (minutesBetween st.startTime now)) →
          tr'.log = tr.log ++ [sessionEntryOf st
            (if noRound then minutesBetween st.startTime now
             else roundToNearest15 (minutesBetween st.startTime now))]) ∧
        (¬ 0 < (if noRound then minutesBetween st.startTime now
                else roundToNearest15 (minutesBetween st.startTime now)) →
          tr'.log = tr.log)) := by
  refine ⟨⟨?_, ?_⟩, ?_, ?_, ?_⟩
  · rintro ⟨m, hm⟩
    cases htr : tr.state with
    | none => exact Or.inl rfl
    | some st =>
      by_cases hp : st.project = []
      · exact Or.inr ⟨st, rfl, hp⟩
      · simp only [stop, htr, if_neg hp] at hm
        simp at hm
  · rintro (htr | ⟨st, hst, hpe⟩)
    · exact ⟨str ("No active tracking session found"), by simp [stop, htr]⟩
    · exact ⟨str ("No active tracking session found"), by simp [stop, hst, hpe]⟩
  · intro htr
    simp [stop, htr]
  · intro st hst hpe
    simp [stop, hst, hpe]
  · intro st hst hne
    refine ⟨⟨if 0 < (if noRound then minutesBetween st.startTime now
            else roundToNearest15 (minutesBetween st.startTime now)) then
          tr.log ++ [sessionEntryOf st (if noRound then minutesBetween st.startTime now
            else roundToNearest15 (minutesBetween st.startTime now))]
        else tr.log, none⟩,
      ?_, rfl, fun hdur => by simp only [if_pos hdur], fun hdur => by simp only [if_neg hdur]⟩
    simp only [stop, hst, if_neg hne]

/-- Witness for `stop_spec`: a session of 50 minutes on project `p`
started at the epoch, stopped at `now = 3000000 ms`; the rounded
duration is 45 so an entry is appended and the state is cleared. -/
theorem stop_spec_witness :
    ∃ tr', stop ⟨[], some ⟨str ("p"), 0, none, some (str ("sess_1"))⟩⟩ false 3000000 =
        .ok tr' ∧
      tr'.state = none ∧
      (0 < (if false then minutesBetween 0 3000000
            else roundToNearest15 (minutesBetween 0 3000000)) →
        tr'.log = [] ++ [sessionEntryOf ⟨str ("p"), 0, none, some (str ("sess_1"))⟩
          (if false then minutesBetween 0 3000000
           else roundToNearest15 (minutesBetween 0 3000000))]) ∧
      (¬ 0 < (if false then minutesBetween 0 3000000
              else roundToNearest15 (minutesBetween 0 3000000)) →
        tr'.log = []) :=
  (stop_spec ⟨[], some ⟨str ("p"), 0, none, some (str ("sess_1"))⟩⟩ false 3000000).2.2.2
    ⟨str ("p"), 0, none, some (str ("sess_1"))⟩ rfl (by decide)

/-- C2: `start(project, ...)` never fails with an already-tracking
error: with a truthy project name it always succeeds, first performing
an implicit stop-equivalent when a session is active (its log effect
equals that of `stop`: the elapsed duration is rounded unless disabled
and a log entry carrying the old session's `sess_`-tagged id is appended
only when the rounded duration is positive), and then installs a fresh
`Tracking` state whose session id is freshly generated with the `sess_`
prefix; `start` with an empty project name is an error and changes
nothing. -/
theorem start_auto_stop_spec (tr : TrackerState) (project : Str)
    (description : Option Str) (noRound : Bool) (now : Int) (seed : Str) :
    (start tr [] description noRound now seed =
      .error (str ("Project name is required"))) ∧
    ((str ("sess_")).isPrefixOf (generateSessionId (str ("sess")) seed) = true) ∧
    (project ≠ [] →
      ∃ tr', start tr project description noRound now seed = .ok tr' ∧
        tr'.state = some { project := project, startTime := now,
                           description := description,
                           sessionId := some (generateSessionId (str ("sess")) seed) } ∧
        (∀ st, tr.state = some st → st.project ≠ [] →
          ∀ trS, stop tr noRound now = .ok trS → tr'.log = trS.log) ∧
        (∀ st, tr.state = some st → st.project ≠ [] →
          (0 < (if noRound then minutesBetween st.startTime now
                else roundToNearest15 (minutesBetween st.startTime now)) →
            tr'.log = tr.log ++ [sessionEntryOf st
              (if noRound then minutesBetween st.startTime now
               else roundToNearest15 (minutesBetween st.startTime now))]) ∧
          (¬ 0 < (if noRound then minutesBetween st.startTime now
                  else roundToNearest15 (minutesBetween st.startTime now)) →
            tr'.log = tr.log)) ∧
        (tr.state = none → tr'.log = tr.log) ∧
        (∀ st, tr.state = some st → st.project = [] → tr'.log = tr.log)) := by
  refine ⟨by simp [start], by simp [generateSessionId, str, List.isPrefixOf], fun hp => ?_⟩
  refine ⟨⟨(match tr.state with
      | some st => if st.project ≠ [] then autoStop tr st noRound now else tr
      | none => tr).log,
    some { project := project, startTime := now, description := description,
           sessionId := some (generateSessionId (str ("sess")) seed) }⟩,
    by simp only [start, if_neg hp], rfl, ?_, ?_, ?_, ?_⟩
  · intro st hst hne trS hS
    simp only [stop, hst, if_neg hne] at hS
    cases hS
    simp only [hst, if_pos hne, autoStop]
    by_cases hdur : 0 < (if noRound then minutesBetween st.startTime now
        else roundToNearest15 (minutesBetween st.startTime now))
    · simp only [if_pos hdur]
    · simp only [if_neg hdur]
  · intro st hst hne
    constructor
    · intro hdur
      simp only [hst, if_pos hne, autoStop, if_pos hdur]
    · intro hdur
      simp only [hst, if_pos hne, autoStop, if_neg hdur]
  · intro hst
    simp only [hst]
  · intro st hst hpe
    simp only [hst, hpe]
    simp

/-- Witness for `start_auto_stop_spec`: starting project `q` at
`now = 3000000 ms` while `p` (started at the epoch, 50 elapsed minutes)
is active. -/
theorem start_auto_stop_spec_witness :
    (str ("q") : Str) ≠ [] ∧
    (∃ tr', start ⟨[], some ⟨str ("p"), 0, none, some (str ("sess_1"))⟩⟩ (str ("q"))
        none false 3000000 (str ("seed")) = .ok tr' ∧
      tr'.state = some { project := str ("q"), startTime := 3000000,
                         description := none,
                         sessionId := some (generateSessionId (str ("sess")) (str ("seed"))) } ∧
      (∀ st, (some (⟨str ("p"), 0, none, some (str ("sess_1"))⟩ : SessionState) = some st) →
        st.project ≠ [] →
        ∀ trS, stop ⟨[], some ⟨str ("p"), 0, none, some (str ("sess_1"))⟩⟩ false 3000000 = .ok trS →
          tr'.log = trS.log) ∧
      (∀ st, (some (⟨str ("p"), 0, none, some (str ("sess_1"))⟩ : SessionState) = some st) →
        st.project ≠ [] →
        (0 < (if false then minutesBetween st.startTime 3000000
              else roundToNearest15 (minutesBetween st.startTime 3000000)) →
          tr'.log = [] ++ [sessionEntryOf st
            (if false then minutesBetween st.startTime 3000000
             else roundToNearest15 (minutesBetween st.startTime 3000000))]) ∧
        (¬ 0 < (if false then minutesBetween st.startTime 3000000
                else roundToNearest15 (minutesBetween st.startTime 3000000)) →
          tr'.log = [])) ∧
      ((some (⟨str ("p"), 0, none, some (str ("sess_1"))⟩ : SessionState) = none) →
        tr'.log = []) ∧
      (∀ st, (some (⟨str ("p"), 0, none, some (str ("sess_1"))⟩ : SessionState) = some st) →
        st.project = [] → tr'.log = [])) :=
  ⟨by decide,
    (start_auto_stop_spec ⟨[], some ⟨str ("p"), 0, none, some (str ("sess_1"))⟩⟩
      (str ("q")) none false 3000000 (str ("seed"))).2.2 (by decide)⟩

/-! ### Claim theorem: `deleteProject` (C9) -/

/-- C9: `deleteProject(name)` removes exactly the entries whose project
equals `name` case-insensitively: with zero exact matches it is a fatal
error (log unchanged — no rewrite happens); otherwise the rewritten log
is the original filtered by the negated exact case-insensitive test, so
every non-matching entry keeps its multiplicity — in particular entries
of descendant projects (`name ++ "/" ++ suffix`) and entries whose
project merely contains `name` strictly are retained. -/
theorem deleteProject_exact_ci_match (allEntries : List SessionEntry)
    (projectName : Str) :
    ((∀ e ∈ allEntries, toLowerStr e.project ≠ toLowerStr projectName) →
      deleteProject allEntries projectName =
        .error (str ("Project \"") ++ projectName ++ str ("\" not found"))) ∧
    ((∃ e ∈ allEntries, toLowerStr e.project = toLowerStr projectName) →
      deleteProject allEntries projectName =
        .ok (allEntries.filter (fun e => ¬ toLowerStr e.project = toLowerStr projectName),
          allEntries.filter (fun e => toLowerStr e.project = toLowerStr projectName))) ∧
    (∀ l' deleted, deleteProject allEntries projectName = .ok (l', deleted) →
      (∀ e, toLowerStr e.project ≠ toLowerStr projectName →
        l'.count e = allEntries.count e) ∧
      (∀ e ∈ l', toLowerStr e.project ≠ toLowerStr projectName) ∧
      (∀ suffix : Str, ∀ e, e.project = projectName ++ '/' :: suffix →
        l'.count e = allEntries.count e)) := by
  have hproj_ne : ∀ (e : SessionEntry) (suffix : Str),
      e.project = projectName ++ '/' :: suffix →
      toLowerStr e.project ≠ toLowerStr projectName := by
    intro e suffix hproj heq
    have hlen := congrArg List.length heq
    simp only [toLowerStr, List.length_map, hproj, List.length_append,
      List.length_cons] at hlen
    omega
  refine ⟨?_, ?_, ?_⟩
  · intro hnone
    have hnil : allEntries.filter
        (fun e => decide (toLowerStr e.project = toLowerStr projectName)) = [] :=
      List.filter_eq_nil_iff.mpr (fun e he => by
        simp only [decide_eq_true_eq]
        exact hnone e he)
    simp only [deleteProject, hnil, List.length_nil]
    simp
  · rintro ⟨e, he, hproj⟩
    have hmem : e ∈ allEntries.filter
        (fun e => decide (toLowerStr e.project = toLowerStr projectName)) :=
      List.mem_filter.mpr ⟨he, decide_eq_true hproj⟩
    have hpos : (allEntries.filter
        (fun e => decide (toLowerStr e.project = toLowerStr projectName))).length ≠ 0 := by
      have := List.length_pos.mpr (List.ne_nil_of_mem hmem)
      omega
    simp only [deleteProject, if_neg hpos]
  · intro l' deleted hok
    by_cases hlen : (allEntries.filter
        (fun e => decide (toLowerStr e.project = toLowerStr projectName))).length = 0
    · simp only [deleteProject, if_pos hlen] at hok
      simp at hok
    · simp only [deleteProject, if_neg hlen, Except.ok.injEq, Prod.mk.injEq] at hok
      obtain ⟨hl', _⟩ := hok
      subst hl'
      refine ⟨?_, ?_, ?_⟩
      · intro e hne
        exact List.count_filter (by simpa using hne)
      · intro e hel
        have := (List.mem_filter.mp hel).2
        simpa using this
      · intro suffix e hproj
        exact List.count_filter (by simpa using hproj_ne e suffix hproj)

/-- Witness for `deleteProject_exact_ci_match`: a log with entries for
`BIZ`, `biz/quote` and `bizdev`; deleting `biz` removes only the
case-insensitive exact match. -/
theorem deleteProject_exact_ci_match_witness :
    (∃ e ∈ [⟨str ("BIZ"), some ⟨2025, 8, 16⟩, 30, none, none, none⟩,
            ⟨str ("biz/quote"), some ⟨2025, 8, 16⟩, 20, none, none, none⟩,
            (⟨str ("bizdev"), some ⟨2025, 8, 16⟩, 10, none, none, none⟩ : SessionEntry)],
      toLowerStr e.project = toLowerStr (str ("biz"))) ∧
    deleteProject [⟨str ("BIZ"), some ⟨2025, 8, 16⟩, 30, none, none, none⟩,
        ⟨str ("biz/quote"), some ⟨2025, 8, 16⟩, 20, none, none, none⟩,
        ⟨str ("bizdev"), some ⟨2025, 8, 16⟩, 10, none, none, none⟩] (str ("biz")) =
      .ok ([⟨str ("BIZ"), some ⟨2025, 8, 16⟩, 30, none, none, none⟩,
            ⟨str ("biz/quote"), some ⟨2025, 8, 16⟩, 20, none, none, none⟩,
            ⟨str ("bizdev"), some ⟨2025, 8, 16⟩, 10, none, none, none⟩].filter
              (fun e => ¬ toLowerStr e.project = toLowerStr (str ("biz"))),
          [⟨str ("BIZ"), some ⟨2025, 8, 16⟩, 30, none, none, none⟩,
            ⟨str ("biz/quote"), some ⟨2025, 8, 16⟩, 20, none, none, none⟩,
            ⟨str ("bizdev"), some ⟨2025, 8, 16⟩, 10, none, none, none⟩].filter
              (fun e => toLowerStr e.project = toLowerStr (str ("biz")))) :=
  ⟨⟨⟨str ("BIZ"), some ⟨2025, 8, 16⟩, 30, none, none, none⟩, by decide, by decide⟩,
    (deleteProject_exact_ci_match _ _).2.1
      ⟨⟨str ("BIZ"), some ⟨2025, 8, 16⟩, 30, none, none, none⟩, by decide, by decide⟩⟩

/-! ### Claim theorems: `deleteEntry` (C5) -/

theorem countP_eq_one_of_nodup_map {α β : Type} [DecidableEq β] (f : α → β)
    (l : List α) (hnd : (l.map f).Nodup) {t : α} (ht : t ∈ l) :
    l.countP (fun e => decide (f e = f t)) = 1 := by
  induction l with
  | nil => cases ht
  | cons x xs ih =>
    rw [List.map_cons, List.nodup_cons] at hnd
    rw [List.countP_cons]
    rcases List.mem_cons.mp ht with h | h
    · subst h
      have hz : xs.countP (fun e => decide (f e = f t)) = 0 := by
        rw [List.countP_eq_zero]
        intro a ha
        simp only [decide_eq_true_eq]
        intro heq
        exact hnd.1 (List.mem_map.mpr ⟨a, ha, heq⟩)
      simp [hz]
    · have hne : ¬ f x = f t := by
        intro heq
        exact hnd.1 (heq ▸ List.mem_map.mpr ⟨t, h, rfl⟩)
      rw [ih hnd.2 h]
      simp [hne]

theorem mem_of_mem_filterEntriesByPeriod {entries : List SessionEntry}
    {period : Period} {cutoff : CivilDate} {e : SessionEntry}
    (h : e ∈ filterEntriesByPeriod entries period cutoff) : e ∈ entries := by
  cases period <;> simp only [filterEntriesByPeriod] at h <;>
    first
      | exact h
      | exact List.mem_of_mem_filter h

/-- C5 counterexample: on a log holding two identical rows (same raw
CSV line), deleting filtered index 1 removes both rows — the row count
drops by 2, not by exactly 1 as the claim states. -/
theorem deleteEntry_duplicate_rows_cex :
    deleteEntry
        [⟨str ("p"), some ⟨2025, 1, 2⟩, 30, none, none, some (str ("p,2025-01-02,30,,"))⟩,
         ⟨str ("p"), some ⟨2025, 1, 2⟩, 30, none, none, some (str ("p,2025-01-02,30,,"))⟩]
        1 Period.all ⟨1970, 1, 1⟩ =
      .ok ([], ⟨str ("p"), some ⟨2025, 1, 2⟩, 30, none, none,
        some (str ("p,2025-01-02,30,,"))⟩) ∧
    ([] : List SessionEntry).length + 1 ≠
      ([⟨str ("p"), some ⟨2025, 1, 2⟩, 30, none, none, some (str ("p,2025-01-02,30,,"))⟩,
        (⟨str ("p"), some ⟨2025, 1, 2⟩, 30, none, none,
          some (str ("p,2025-01-02,30,,"))⟩ : SessionEntry)] :
        List SessionEntry).length := by
  exact ⟨rfl, by decide⟩

/-- C5 amended: `deleteEntry(index, period)` errors, naming the valid
range, when the 1-based index falls outside the period-filtered view,
and the log is unchanged; with a valid index it selects the row at that
position of the filtered view and rewrites the full log without every
row identified with it (same original line when both lines are present,
otherwise same project+date+duration).  When the log's original lines
are all present and pairwise distinct — in particular when there are no
duplicate raw rows — exactly one row is removed. -/
theorem deleteEntry_filtered_index_spec (allEntries : List SessionEntry)
    (index : Int) (period : Period) (cutoff : CivilDate) :
    ((index < 1 ∨ ((filterEntriesByPeriod allEntries period cutoff).length : Int) < index) →
      deleteEntry allEntries index period cutoff =
        .error (str ("Invalid index. Use a number between 1 and ") ++
          natToChars (filterEntriesByPeriod allEntries period cutoff).length)) ∧
    (1 ≤ index → index ≤ ((filterEntriesByPeriod allEntries period cutoff).length : Int) →
      ∃ target,
        (filterEntriesByPeriod allEntries period cutoff).get? (index - 1).toNat =
          some target ∧
        deleteEntry allEntries index period cutoff =
          .ok (allEntries.filter (fun e => keepOnDeleteEntry target e), target)) ∧
    ((∀ e ∈ allEntries, jsTruthyStr e.originalLine = true) →
      (allEntries.map (·.originalLine)).Nodup →
      ∀ l' target, deleteEntry allEntries index period cutoff = .ok (l', target) →
        l'.length + 1 = allEntries.length) := by
  have hguard_ok : ∀ l' target,
      deleteEntry allEntries index period cutoff = .ok (l', target) →
      target ∈ allEntries ∧
        l' = allEntries.filter (fun e => keepOnDeleteEntry target e) := by
    intro l' target hok
    by_cases hguard :
        index < 1 ∨ ((filterEntriesByPeriod allEntries period cutoff).length : Int) < index
    · simp only [deleteEntry, if_pos hguard] at hok
      simp at hok
    · simp only [deleteEntry, if_neg hguard] at hok
      cases hget : (filterEntriesByPeriod allEntries period cutoff).get? (index - 1).toNat with
      | none =>
        rw [hget] at hok
        simp at hok
      | some tgt =>
        rw [hget] at hok
        simp only [Except.ok.injEq, Prod.mk.injEq] at hok
        obtain ⟨hl', htgt⟩ := hok
        subst htgt
        exact ⟨mem_of_mem_filterEntriesByPeriod (List.get?_mem hget), hl'.symm⟩
  refine ⟨?_, ?_, ?_⟩
  · intro hguard
    simp only [deleteEntry, if_pos hguard]
  · intro h1 h2
    have hguard : ¬ (index < 1 ∨
        ((filterEntriesByPeriod allEntries period cutoff).length : Int) < index) := by
      omega
    have hlt : (index - 1).toNat < (filterEntriesByPeriod allEntries period cutoff).length := by
      omega
    refine ⟨(filterEntriesByPeriod allEntries period cutoff).get ⟨(index - 1).toNat, hlt⟩,
      List.get?_eq_get hlt, ?_⟩
    simp only [deleteEntry, if_neg hguard, List.get?_eq_get hlt]
  · intro hlines hnodup l' target hok
    obtain ⟨htmem, hl'⟩ := hguard_ok l' target hok
    have htline : jsTruthyStr target.originalLine = true := hlines target htmem
    have hkeep : ∀ e ∈ allEntries,
        (keepOnDeleteEntry target e = true) ↔
          ¬ e.originalLine = target.originalLine := by
      intro e he
      simp [keepOnDeleteEntry, htline, hlines e he]
    have hcount :
        allEntries.countP (fun e => decide (e.originalLine = target.originalLine)) = 1 :=
      countP_eq_one_of_nodup_map (·.originalLine) allEntries hnodup htmem
    have hlen := List.length_eq_countP_add_countP
      (fun e => keepOnDeleteEntry target e) allEntries
    have hfc : allEntries.countP
        (fun e => decide (¬ keepOnDeleteEntry target e = true)) =
        allEntries.countP (fun e => decide (e.originalLine = target.originalLine)) := by
      refine List.countP_congr (fun e he => ?_)
      have := hkeep e he
      by_cases hde : e.originalLine = target.originalLine <;> simp [hde, this]
    have hflen := List.countP_eq_length_filter
      (fun e => keepOnDeleteEntry target e) allEntries
    rw [hl']
    omega

/-- Witness for `deleteEntry_filtered_index_spec`: deleting filtered
index 2 from a two-row log with distinct raw lines removes exactly one
row. -/
theorem deleteEntry_filtered_index_spec_witness :
    (∀ e ∈ [exEntryA, exEntryB], jsTruthyStr e.originalLine = true) ∧
    (([exEntryA, exEntryB].map (·.originalLine)).Nodup) ∧
    ([exEntryA] : List SessionEntry).length + 1 =
      ([exEntryA, exEntryB] : List SessionEntry).length :=
  ⟨by decide, by decide,
    (deleteEntry_filtered_index_spec [exEntryA, exEntryB] 2 Period.all
      ⟨1970, 1, 1⟩).2.2 (by decide) (by decide) [exEntryA] exEntryB rfl⟩

/-! ### Claim theorems: `deleteByProject` (C6) -/

theorem dateTimeEq_eq {a b : Option CivilDate} (h : dateTimeEq a b = true) : a = b := by
  cases a <;> cases b <;> simp [dateTimeEq] at h ⊢
  exact h

theorem matchesForBulkDelete_self (e : SessionEntry) :
    matchesForBulkDelete e e = true := by
  simp [matchesForBulkDelete]

theorem filterEntriesByProject_eq_filter (entries : List SessionEntry)
    (pf : Option Str) :
    filterEntriesByProject entries pf =
      entries.filter (fun e => e.matchesProject pf) := by
  unfold filterEntriesByProject
  by_cases h : jsTruthyStr pf = true
  · rw [if_pos h]
  · rw [if_neg h]
    refine (List.filter_eq_self.mpr (fun e _ => ?_)).symm
    unfold SessionEntry.matchesProject
    rw [if_neg h]

theorem matchesProject_of_eq {d e : SessionEntry} (pf : Option Str)
    (h : d.project = e.project) : d.matchesProject pf = e.matchesProject pf := by
  unfold SessionEntry.matchesProject
  rw [h]

theorem isWithinDateRange_of_eq {d e : SessionEntry} (cutoff : CivilDate)
    (h : d.date = e.date) : d.isWithinDateRange cutoff = e.isWithinDateRange cutoff := by
  unfold SessionEntry.isWithinDateRange
  rw [h]

/-- With a period criterion, the rewrite removes exactly the candidate
set: an entry matches some candidate (by original line or by
project+date+duration) iff it satisfies the project and period
predicates itself — provided entries with equal original lines agree on
project, date and duration (true of every `readAllLogEntries` result,
where those fields are parsed from the line). -/
theorem removeMatching_candidates_exact (allEntries : List SessionEntry)
    (pf : Option Str) (period : Period) (hp : period ≠ Period.all)
    (cutoff : CivilDate)
    (hcons : ∀ e1 ∈ allEntries, ∀ e2 ∈ allEntries,
      e1.originalLine = e2.originalLine →
      e1.project = e2.project ∧ e1.date = e2.date ∧ e1.duration = e2.duration) :
    removeMatching allEntries
        (filterEntriesByPeriod (filterEntriesByProject allEntries pf) period cutoff) =
      allEntries.filter
        (fun e => !(e.matchesProject pf && e.isWithinDateRange cutoff)) := by
  have hcand : filterEntriesByPeriod (filterEntriesByProject allEntries pf) period cutoff =
      allEntries.filter (fun e => e.matchesProject pf && e.isWithinDateRange cutoff) := by
    rw [filterEntriesByProject_eq_filter]
    cases period with
    | all => exact absurd rfl hp
    | day =>
      rw [show filterEntriesByPeriod
          (allEntries.filter (fun e => e.matchesProject pf)) Period.day cutoff =
          (allEntries.filter (fun e => e.matchesProject pf)).filter
            (fun e => e.isWithinDateRange cutoff) from rfl]
      rw [List.filter_filter]
      exact List.filter_congr (fun e _ => Bool.and_comm _ _)
    | week =>
      rw [show filterEntriesByPeriod
          (allEntries.filter (fun e => e.matchesProject pf)) Period.week cutoff =
          (allEntries.filter (fun e => e.matchesProject pf)).filter
            (fun e => e.isWithinDateRange cutoff) from rfl]
      rw [List.filter_filter]
      exact List.filter_congr (fun e _ => Bool.and_comm _ _)
    | month =>
      rw [show filterEntriesByPeriod
          (allEntries.filter (fun e => e.matchesProject pf)) Period.month cutoff =
          (allEntries.filter (fun e => e.matchesProject pf)).filter
            (fun e => e.isWithinDateRange cutoff) from rfl]
      rw [List.filter_filter]
      exact List.filter_congr (fun e _ => Bool.and_comm _ _)
  rw [hcand]
  unfold removeMatching
  refine List.filter_congr (fun e he => ?_)
  congr 1
  by_cases hpe : (e.matchesProject pf && e.isWithinDateRange cutoff) = true
  · rw [hpe]
    exact List.any_eq_true.mpr
      ⟨e, List.mem_filter.mpr ⟨he, hpe⟩, matchesForBulkDelete_self e⟩
  · have hall : ∀ d ∈ allEntries.filter
        (fun x => x.matchesProject pf && x.isWithinDateRange cutoff),
        matchesForBulkDelete d e = false := by
      intro d hd
      obtain ⟨hdmem, hdpred⟩ := List.mem_filter.mp hd
      by_contra hmatch
      rw [Bool.not_eq_false] at hmatch
      have hfields : d.project = e.project ∧ d.date = e.date ∧ d.duration = e.duration := by
        simp only [matchesForBulkDelete, decide_eq_true_eq] at hmatch
        rcases hmatch with hline | hfb
        · exact hcons d hdmem e he hline
        · exact ⟨hfb.1, dateTimeEq_eq hfb.2.1, hfb.2.2⟩
      have : (e.matchesProject pf && e.isWithinDateRange cutoff) = true := by
        rw [← matchesProject_of_eq pf hfields.1, ← isWithinDateRange_of_eq cutoff hfields.2.1]
        exact hdpred
      exact hpe this
    have : (allEntries.filter
        (fun x => x.matchesProject pf && x.isWithinDateRange cutoff)).any
        (fun d => matchesForBulkDelete d e) = false := by
      rw [Bool.eq_false_iff]
      intro hany
      obtain ⟨d, hd, hmd⟩ := List.any_eq_true.mp hany
      rw [hall d hd] at hmd
      cases hmd
    rw [this, Bool.eq_false_iff.mpr hpe]

/-- C6 counterexample: with criteria `{last: true}` on the log
`[exDupB, exDupA]` (two rows agreeing on project, date and duration but
with different descriptions and raw lines), the candidate set is exactly
`[exDupA]`, yet the rewrite also removes the non-candidate `exDupB`
through the project+date+duration fallback: the resulting log is `[]`,
not the original minus the candidate set (`[exDupB]`). -/
theorem deleteByProject_last_duplicate_cex :
    deleteByProject [exDupB, exDupA] ⟨none, true, false, false, false⟩ ⟨1970, 1, 1⟩ =
      .ok ([], [exDupA]) ∧
    exDupB ≠ exDupA ∧
    ([] : List SessionEntry) ≠ [exDupB] := by
  exact ⟨rfl, by decide, by decide⟩

/-- C6 amended: `deleteByProject` fails, naming the excluding
predicate(s), whenever a narrowing step leaves nothing (empty log;
project substring with no match; period with no surviving candidate,
the message naming the time range and the project filter), and the log
is unchanged on error; on success it rewrites the log in one pass,
removing every entry that matches some candidate by original line or by
project+date+duration, and reports the candidate set.  With a period
criterion this removes exactly the entries satisfying the project and
period predicates (assuming entries with equal original lines agree on
project, date and duration, as read entries do); with `last`, every
entry value-matching the most recent remaining entry is removed, which
can exceed the single candidate when value-duplicate rows exist. -/
theorem deleteByProject_spec (allEntries : List SessionEntry)
    (opts : DeleteByOptions) (cutoff : CivilDate) :
    (allEntries = [] →
      deleteByProject allEntries opts cutoff = .error (str ("No log entries found"))) ∧
    (jsTruthyStr opts.project = true →
      filterEntriesByProject allEntries opts.project = [] → allEntries ≠ [] →
      deleteByProject allEntries opts cutoff =
        .error (str ("No entries found for project matching: ") ++ opts.project.getD [])) ∧
    (allEntries ≠ [] → opts.last = false → opts.today = true →
      jsTruthyStr opts.project = true →
      filterEntriesByProject allEntries opts.project ≠ [] →
      filterEntriesByPeriod (filterEntriesByProject allEntries opts.project)
        Period.day cutoff = [] →
      deleteByProject allEntries opts cutoff =
        .error (str ("No entries found today for project matching \"") ++
          opts.project.getD [] ++ str ("\""))) ∧
    (allEntries ≠ [] → opts.last = true →
      (jsTruthyStr opts.project = true →
        filterEntriesByProject allEntries opts.project ≠ []) →
      ∃ lastE, (filterEntriesByProject allEntries opts.project).getLast? = some lastE ∧
        deleteByProject allEntries opts cutoff =
          .ok (allEntries.filter (fun e => !matchesForBulkDelete lastE e), [lastE])) ∧
    (allEntries ≠ [] → opts.last = false →
      (opts.today || opts.week || opts.month) = true →
      (jsTruthyStr opts.project = true →
        filterEntriesByProject allEntries opts.project ≠ []) →
      filterEntriesByPeriod (filterEntriesByProject allEntries opts.project)
        (if opts.today then Period.day else if opts.week then Period.week
         else Period.month) cutoff ≠ [] →
      (∀ e1 ∈ allEntries, ∀ e2 ∈ allEntries, e1.originalLine = e2.originalLine →
        e1.project = e2.project ∧ e1.date = e2.date ∧ e1.duration = e2.duration) →
      deleteByProject allEntries opts cutoff =
        .ok (allEntries.filter
            (fun e => !(e.matchesProject opts.project && e.isWithinDateRange cutoff)),
          filterEntriesByPeriod (filterEntriesByProject allEntries opts.project)
            (if opts.today then Period.day else if opts.week then Period.week
             else Period.month) cutoff)) := by
  have hlen0 : ∀ (l : List SessionEntry), l ≠ [] → ¬ l.length = 0 := by
    intro l hl h
    exact hl (List.length_eq_zero.mp h)
  refine ⟨?_, ?_, ?_, ?_, ?_⟩
  · intro h
    subst h
    rfl
  · intro htruthy hempty hne
    unfold deleteByProject
    rw [if_neg (hlen0 allEntries hne), if_pos ⟨htruthy, by rw [hempty]; rfl⟩]
  · intro hne hlast htoday htruthy hproj hperiod
    have hmsg : str ("No entries found today for project matching \"") =
        str ("No entries found ") ++ str ("today") ++
          str (" for project matching \"") := by decide
    unfold deleteByProject
    rw [if_neg (hlen0 allEntries hne),
      if_neg (fun hc => (hlen0 _ hproj) hc.2), if_neg (by rw [hlast]; simp),
      if_pos (by rw [htoday]; simp)]
    simp only [htoday, if_true]
    rw [hperiod]
    simp only [List.length_nil, htruthy, if_true, hmsg]
    simp [List.append_assoc]
  · intro hne hlast hproj
    have hafter : filterEntriesByProject allEntries opts.project ≠ [] := by
      by_cases ht : jsTruthyStr opts.project = true
      · exact hproj ht
      · unfold filterEntriesByProject
        rw [if_neg ht]
        exact hne
    have hrm : removeMatching allEntries
        [(filterEntriesByProject allEntries opts.project).getLast hafter] =
        allEntries.filter (fun e =>
          !matchesForBulkDelete
            ((filterEntriesByProject allEntries opts.project).getLast hafter) e) := by
      unfold removeMatching
      exact List.filter_congr (fun e _ => by simp)
    refine ⟨(filterEntriesByProject allEntries opts.project).getLast hafter,
      List.getLast?_eq_getLast _ hafter, ?_⟩
    unfold deleteByProject
    rw [if_neg (hlen0 allEntries hne),
      if_neg (fun hc => (hlen0 _ hafter) hc.2), if_pos hlast,
      List.getLast?_eq_getLast _ hafter, ← hrm]
  · intro hne hlast hper hproj hcand hcons
    have hafter : filterEntriesByProject allEntries opts.project ≠ [] := by
      by_cases ht : jsTruthyStr opts.project = true
      · exact hproj ht
      · unfold filterEntriesByProject
        rw [if_neg ht]
        exact hne
    have hpnotall : (if opts.today then Period.day else if opts.week then Period.week
        else Period.month) ≠ Period.all := by
      by_cases h1 : opts.today = true <;> by_cases h2 : opts.week = true <;>
        simp [h1, h2]
    unfold deleteByProject
    rw [if_neg (hlen0 allEntries hne),
      if_neg (fun hc => (hlen0 _ hafter) hc.2), if_neg (by rw [hlast]; simp),
      if_pos (by simp only [Bool.or_eq_true, or_assoc] at hper; exact hper)]
    rw [if_neg (hlen0 _ hcand)]
    rw [removeMatching_candidates_exact allEntries opts.project _ hpnotall cutoff hcons]

/-- Witness for `deleteByProject_spec`: deleting today's entries of
project `alpha` from a two-project log removes exactly the matching
entry. -/
theorem deleteByProject_spec_witness :
    deleteByProject [exEntryA, exEntryB]
        ⟨some (str ("alpha")), false, true, false, false⟩ ⟨2025, 1, 1⟩ =
      .ok ([exEntryA, exEntryB].filter
          (fun e => !(e.matchesProject (some (str ("alpha"))) &&
            e.isWithinDateRange ⟨2025, 1, 1⟩)),
        filterEntriesByPeriod
          (filterEntriesByProject [exEntryA, exEntryB] (some (str ("alpha"))))
          Period.day ⟨2025, 1, 1⟩) :=
  (deleteByProject_spec [exEntryA, exEntryB]
      ⟨some (str ("alpha")), false, true, false, false⟩ ⟨2025, 1, 1⟩).2.2.2.2
    (by decide) rfl rfl (by decide) (by decide) (by decide)

/-! ### Claim theorems: hierarchy rollup (C4) -/

theorem foldl_add_eq_add_sum (l : List Int) (a : Int) :
    l.foldl (· + ·) a = a + l.sum := by
  induction l generalizing a with
  | nil => simp
  | cons x xs ih =>
    rw [List.foldl_cons, ih, List.sum_cons]
    ring

theorem le_foldr_max {l : List Nat} {x : Nat} (hx : x ∈ l) :
    x ≤ l.foldr max 0 := by
  induction l with
  | nil => cases hx
  | cons a l ih =>
    rw [List.foldr_cons]
    rcases List.mem_cons.mp hx with h | h
    · subst h
      exact Nat.le_max_left _ _
    · exact Nat.le_trans (ih h) (Nat.le_max_right _ _)

theorem childrenOf_mem_keys {flat : List (Str × Int)} {p q : Str}
    (h : q ∈ childrenOf flat p) : q ∈ hierKeys flat := by
  simp only [childrenOf, List.mem_filter] at h
  exact h.1

theorem keyDepth_le_maxKeyDepth {flat : List (Str × Int)} {p : Str}
    (hp : p ∈ hierKeys flat) :
    (parseProject p).length ≤ maxKeyDepth flat :=
  le_foldr_max (List.mem_map.mpr ⟨p, hp, rfl⟩)

/-- C4 counterexample: on the gapped flat stats
`{a ↦ 10, a/b/c ↦ 20}` (the intermediate path `a/b` has no entry),
`a/b/c` is a strict-path-prefix descendant of `a` (`isParentOf` holds),
yet the computed rolled-up total of `a` is its direct 10 minutes alone,
not the 30 the claim's descendant-sum formula requires: the rollup only
follows immediate-parent links to keys present in the stats set. -/
theorem hierarchical_stats_descendant_rollup_cex :
    hierTotal [(str ("a"), 10), (str ("a/b/c"), 20)] (str ("a")) = 10 ∧
    isParentOf (str ("a")) (str ("a/b/c")) = true ∧
    hierDirect [(str ("a"), 10), (str ("a/b/c"), 20)] (str ("a")) +
      (([((str ("a") : Str), (10 : Int)), (str ("a/b/c"), 20)].filter
          (fun kv => isParentOf (str ("a")) kv.1)).map (·.2)).sum = 30 ∧
    (10 : Int) ≠ 30 := by
  exact ⟨by decide, by decide, by decide, by decide⟩

/-- C4 amended: for every flat stats map and every key, the computed
rolled-up total satisfies `total(node) = direct(node) + Σ total(child)`
where the children are the keys whose immediate parent path is the node
(descendants whose intermediate path nodes are absent from the stats set
are treated as roots and are not rolled into the ancestor); the
computation is a pure function of the flat stats (recomputing it yields
the same totals), there is no double counting when a project and its
parent both have direct entries, and on the example
`business=25, business/quote=30, business/invoicing=45` the total of
`business` is 100. -/
theorem hierarchical_stats_child_rollup (flat : List (Str × Int)) (p : Str)
    (hp : p ∈ hierKeys flat) :
    hierTotal flat p =
      hierDirect flat p + ((childrenOf flat p).map (hierTotal flat)).sum ∧
    hierTotal [(str ("business"), 25), (str ("business/quote"), 30),
      (str ("business/invoicing"), 45)] (str ("business")) = 100 := by
  refine ⟨?_, by decide⟩
  have hdep : (parseProject p).length ≤ maxKeyDepth flat := keyDepth_le_maxKeyDepth hp
  have hfuel : maxKeyDepth flat + 1 - (parseProject p).length =
      (maxKeyDepth flat - (parseProject p).length) + 1 := by omega
  unfold hierTotal
  rw [hfuel]
  rw [show totalAux flat ((maxKeyDepth flat - (parseProject p).length) + 1) p =
      ((childrenOf flat p).map
        (totalAux flat (maxKeyDepth flat - (parseProject p).length))).foldl
        (· + ·) (hierDirect flat p) from rfl]
  rw [List.map_congr_left (fun c hc => ?_), foldl_add_eq_add_sum]
  have hck : c ∈ hierKeys flat := childrenOf_mem_keys hc
  have hclen : (parseProject c).length = (parseProject p).length + 1 := by
    have := getParent_length (childrenOf_parent hc)
    omega
  have hcdep : (parseProject c).length ≤ maxKeyDepth flat := keyDepth_le_maxKeyDepth hck
  show totalAux flat (maxKeyDepth flat - (parseProject p).length) c = hierTotal flat c
  unfold hierTotal
  rw [show maxKeyDepth flat + 1 - (parseProject c).length =
      maxKeyDepth flat - (parseProject p).length from by omega]

/-! ### Decimal digit lemmas (for the CSV round trip) -/

theorem digitChar_isDigit {n : Nat} (h : n < 10) : (digitChar n).isDigit = true := by
  interval_cases n <;> decide

theorem digitChar_toNat {n : Nat} (h : n < 10) : (digitChar n).toNat - 48 = n := by
  interval_cases n <;> decide

theorem natToChars_ne_nil (n : Nat) : natToChars n ≠ [] := by
  unfold natToChars
  split
  · simp
  · simp

theorem natToChars_digits (n : Nat) : ∀ c ∈ natToChars n, c.isDigit = true := by
  induction n using Nat.strong_induction_on with
  | _ n ih =>
    unfold natToChars
    split
    · next h =>
      intro c hc
      rw [List.mem_singleton] at hc
      subst hc
      exact digitChar_isDigit h
    · next h =>
      intro c hc
      rcases List.mem_append.mp hc with hc | hc
      · exact ih (n / 10) (Nat.div_lt_self (by omega) (by omega)) c hc
      · rw [List.mem_singleton] at hc
        subst hc
        exact digitChar_isDigit (Nat.mod_lt n (by omega))

theorem charsVal_append_singleton (s : Str) (c : Char) :
    charsVal (s ++ [c]) = 10 * charsVal s + (c.toNat - 48) := by
  unfold charsVal
  rw [List.foldl_append]
  rfl

theorem charsVal_natToChars (n : Nat) : charsVal (natToChars n) = n := by
  induction n using Nat.strong_induction_on with
  | _ n ih =>
    unfold natToChars
    split
    · next h =>
      show 10 * 0 + ((digitChar n).toNat - 48) = n
      rw [digitChar_toNat h]
      omega
    · next h =>
      rw [charsVal_append_singleton,
        ih (n / 10) (Nat.div_lt_self (by omega) (by omega)),
        digitChar_toNat (Nat.mod_lt n (by omega))]
      omega

theorem natToChars_length_le : ∀ (k n : Nat), n < 10 ^ k → 1 ≤ k →
    (natToChars n).length ≤ k := by
  intro k
  induction k with
  | zero =>
    intro n _ h1
    omega
  | succ k ih =>
    intro n h _
    unfold natToChars
    split
    · rw [List.length_singleton]
      omega
    · next hge =>
      have hk1 : 1 ≤ k := by
        rcases Nat.eq_zero_or_pos k with hk | hk
        · subst hk
          norm_num at h
          omega
        · omega
      have hdiv : n / 10 < 10 ^ k := by
        rw [Nat.div_lt_iff_lt_mul (by omega)]
        calc n < 10 ^ (k + 1) := h
        _ = 10 ^ k * 10 := by ring
      have := ih (n / 10) hdiv hk1
      rw [List.length_append, List.length_singleton]
      omega

theorem isDigit_ne_of_not_digit {c d : Char} (h : c.isDigit = true)
    (hd : d.isDigit = false) : c ≠ d := by
  intro he
  rw [he, hd] at h
  cases h

theorem jsWhite_of_isDigit {c : Char} (h : c.isDigit = true) : jsWhite c = false := by
  by_contra hw
  rw [Bool.not_eq_false] at hw
  simp only [jsWhite, decide_eq_true_eq] at hw
  rcases hw with h1 | h1 | h1 | h1 <;> (subst h1; cases h)

theorem padZeros_length {k : Nat} {s : Str} (h : s.length ≤ k) :
    (padZeros k s).length = k := by
  unfold padZeros
  rw [List.length_append, List.length_replicate]
  omega

theorem padZeros_digits {k : Nat} {s : Str} (h : ∀ c ∈ s, c.isDigit = true) :
    ∀ c ∈ padZeros k s, c.isDigit = true := by
  intro c hc
  rcases List.mem_append.mp hc with hc | hc
  · rw [List.eq_of_mem_replicate hc]
    decide
  · exact h c hc

theorem charsVal_replicate_zero (m : Nat) :
    List.foldl (fun a c => 10 * a + (c.toNat - 48)) 0 (List.replicate m '0') = 0 := by
  induction m with
  | zero => rfl
  | succ m ih =>
    rw [List.replicate_succ, List.foldl_cons]
    exact ih

theorem charsVal_padZeros (k : Nat) (s : Str) :
    charsVal (padZeros k s) = charsVal s := by
  unfold padZeros charsVal
  rw [List.foldl_append, charsVal_replicate_zero]

theorem exists_two {l : Str} (h : l.length = 2) : ∃ a b, l = [a, b] := by
  rcases l with _ | ⟨a, _ | ⟨b, _ | ⟨c, t⟩⟩⟩ <;> simp_all

theorem exists_four {l : Str} (h : l.length = 4) : ∃ a b c d, l = [a, b, c, d] := by
  rcases l with _ | ⟨a, _ | ⟨b, _ | ⟨c, _ | ⟨d, _ | ⟨e, t⟩⟩⟩⟩⟩ <;> simp_all

/-! ### Date format/parse round trip (for C7) -/

theorem daysInMonth_le (y m : Nat) : daysInMonth y m ≤ 31 := by
  unfold daysInMonth
  split_ifs <;> omega

theorem validCivil_parts {c : CivilDate} (h : validCivil c = true) :
    1 ≤ c.m ∧ c.m ≤ 12 ∧ 1 ≤ c.d ∧ c.d ≤ daysInMonth c.y c.m ∧ c.y ≤ 9999 := by
  simpa [validCivil] using h

theorem parseDateChars_formatCivil {c : CivilDate} (h : validCivil c = true) :
    parseDateChars (formatCivil c) = some c := by
  obtain ⟨y, m, d⟩ := c
  obtain ⟨hm1, hm2, hd1, hd2, hy⟩ := validCivil_parts h
  simp only at hm1 hm2 hd1 hd2 hy
  have hdle : d ≤ 31 := le_trans hd2 (daysInMonth_le y m)
  have hyl : (natToChars y).length ≤ 4 := natToChars_length_le 4 y (by omega) (by omega)
  have hml : (natToChars m).length ≤ 2 := natToChars_length_le 2 m (by omega) (by omega)
  have hdl : (natToChars d).length ≤ 2 := natToChars_length_le 2 d (by omega) (by omega)
  obtain ⟨y1, y2, y3, y4, hy4⟩ := exists_four (padZeros_length hyl)
  obtain ⟨m1, m2, hmm⟩ := exists_two (padZeros_length hml)
  obtain ⟨d1, d2, hdd⟩ := exists_two (padZeros_length hdl)
  have hline : formatCivil ⟨y, m, d⟩ = [y1, y2, y3, y4, '-', m1, m2, '-', d1, d2] := by
    unfold formatCivil
    simp only
    rw [hy4, hmm, hdd]
    rfl
  have hyds := padZeros_digits (k := 4) (natToChars_digits y)
  rw [hy4] at hyds
  have hmds := padZeros_digits (k := 2) (natToChars_digits m)
  rw [hmm] at hmds
  have hdds := padZeros_digits (k := 2) (natToChars_digits d)
  rw [hdd] at hdds
  have hvy : charsVal [y1, y2, y3, y4] = y := by
    rw [← hy4, charsVal_padZeros, charsVal_natToChars]
  have hvm : charsVal [m1, m2] = m := by
    rw [← hmm, charsVal_padZeros, charsVal_natToChars]
  have hvd : charsVal [d1, d2] = d := by
    rw [← hdd, charsVal_padZeros, charsVal_natToChars]
  rw [hline]
  have hall : ([y1, y2, y3, y4, m1, m2, d1, d2].all Char.isDigit) = true := by
    simp only [List.all_cons, List.all_nil, Bool.and_eq_true]
    refine ⟨hyds y1 (by simp), hyds y2 (by simp), hyds y3 (by simp), hyds y4 (by simp),
      hmds m1 (by simp), hmds m2 (by simp), hdds d1 (by simp), hdds d2 (by simp),
      trivial⟩
  show (if (decide ('-' = '-') && decide ('-' = '-') &&
      ([y1, y2, y3, y4, m1, m2, d1, d2].all Char.isDigit)) = true then
    let c : CivilDate :=
      ⟨charsVal [y1, y2, y3, y4], charsVal [m1, m2], charsVal [d1, d2]⟩
    if validCivil c = true then some c else none
  else none) = some ⟨y, m, d⟩
  rw [if_pos (by simp [hall])]
  simp only [hvy, hvm, hvd]
  rw [if_pos (by exact h)]

/-! ### `parseInt` of a rendered positive integer (for C7) -/

theorem jsParseInt_intToChars {n : Int} (h : 0 < n) :
    jsParseInt (intToChars n) = some n := by
  unfold intToChars
  rw [if_neg (by omega)]
  cases heq : natToChars n.toNat with
  | nil => exact absurd heq (natToChars_ne_nil n.toNat)
  | cons c rest =>
    have hdig : ∀ x ∈ natToChars n.toNat, x.isDigit = true := natToChars_digits n.toNat
    have hcd : c.isDigit = true := by
      apply hdig
      rw [heq]
      exact List.mem_cons_self c rest
    have hred : jsParseInt (c :: rest) =
        (if c = '-' then (parseDigitsVal rest).map (fun n => -(n : Int))
         else if c = '+' then (parseDigitsVal rest).map (fun n => (n : Int))
         else (parseDigitsVal (c :: rest)).map (fun n => (n : Int))) := by
      unfold jsParseInt
      rw [List.dropWhile_cons, if_neg (by rw [jsWhite_of_isDigit hcd]; simp)]
    rw [hred]
    rw [if_neg (isDigit_ne_of_not_digit hcd (by decide)),
      if_neg (isDigit_ne_of_not_digit hcd (by decide))]
    unfold parseDigitsVal
    have htake : (c :: rest).takeWhile Char.isDigit = c :: rest := by
      rw [List.takeWhile_eq_self_iff]
      intro x hx
      apply hdig
      rw [heq]
      exact hx
    simp only [htake]
    rw [if_neg (by simp)]
    have : charsVal (c :: rest) = n.toNat := by
      rw [← heq, charsVal_natToChars]
    rw [this]
    show some ((n.toNat : Nat) : Int) = some n
    rw [Int.toNat_of_nonneg (by omega)]

/-! ### Per-entry CSV round trip (for C7) -/

theorem mem_dropWhile_of_not {p : Char → Bool} {c : Char} (hcw : p c = false) :
    ∀ {s : Str}, c ∈ s → c ∈ s.dropWhile p := by
  intro s
  induction s with
  | nil => intro h; cases h
  | cons a t ih =>
    intro h
    rw [List.dropWhile_cons]
    by_cases hpa : p a = true
    · rw [if_pos hpa]
      rcases List.mem_cons.mp h with h | h
      · subst h
        rw [hcw] at hpa
        cases hpa
      · exact ih h
    · rw [if_neg hpa]
      exact h

theorem trimChars_ne_nil {s : Str} (hc : ∃ c ∈ s, jsWhite c = false) :
    trimChars s ≠ [] := by
  obtain ⟨c, hcs, hcw⟩ := hc
  have h1 : c ∈ s.dropWhile jsWhite := mem_dropWhile_of_not hcw hcs
  have h2 : c ∈ (s.dropWhile jsWhite).reverse := List.mem_reverse.mpr h1
  have h3 : c ∈ (s.dropWhile jsWhite).reverse.dropWhile jsWhite :=
    mem_dropWhile_of_not hcw h2
  intro hnil
  unfold trimChars at hnil
  rw [List.reverse_eq_nil_iff] at hnil
  rw [hnil] at h3
  cases h3

theorem formatCivil_chars {d : CivilDate} :
    ∀ c ∈ formatCivil d, c.isDigit = true ∨ c = '-' := by
  intro c hc
  unfold formatCivil at hc
  rcases List.mem_append.mp hc with hc | hc
  · exact Or.inl (padZeros_digits (natToChars_digits _) c hc)
  · rcases List.mem_cons.mp hc with hc | hc
    · exact Or.inr hc
    · rcases List.mem_append.mp hc with hc | hc
      · exact Or.inl (padZeros_digits (natToChars_digits _) c hc)
      · rcases List.mem_cons.mp hc with hc | hc
        · exact Or.inr hc
        · exact Or.inl (padZeros_digits (natToChars_digits _) c hc)

theorem formatCivil_no_comma {d : CivilDate} : ',' ∉ formatCivil d := by
  intro hc
  rcases formatCivil_chars ',' hc with h | h
  · exact absurd h (by decide)
  · exact absurd h (by decide)

theorem dash_mem_formatCivil (d : CivilDate) : '-' ∈ formatCivil d := by
  unfold formatCivil
  exact List.mem_append.mpr (Or.inr (List.mem_cons_self _ _))

theorem intToChars_pos_digits {n : Int} (h : 0 < n) :
    ∀ c ∈ intToChars n, c.isDigit = true := by
  unfold intToChars
  rw [if_neg (by omega)]
  exact natToChars_digits _

theorem intToChars_pos_ne_nil {n : Int} (h : 0 < n) : intToChars n ≠ [] := by
  unfold intToChars
  rw [if_neg (by omega)]
  exact natToChars_ne_nil _

theorem splitOnChar_five {p a b c' d' : Str} (hp : ',' ∉ p) (ha : ',' ∉ a)
    (hb : ',' ∉ b) (hc : ',' ∉ c') (hd : ',' ∉ d') :
    splitOnChar ',' (p ++ ',' :: (a ++ ',' :: (b ++ ',' :: (c' ++ ',' :: d')))) =
      [p, a, b, c', d'] := by
  rw [splitOnChar_append _ hp, splitOnChar_append _ ha, splitOnChar_append _ hb,
    splitOnChar_append _ hc, splitOnChar_no_sep hd]

theorem fromCSVLine_toCSVLine {e : SessionEntry} (hv : validEntryB e = true) :
    SessionEntry.fromCSVLine e.toCSVLine = some (normalizeEntry e) := by
  simp only [validEntryB, Bool.and_eq_true, List.all_eq_true, Bool.not_eq_true',
    decide_eq_true_eq, Option.isNone_iff_eq_none] at hv
  obtain ⟨⟨⟨⟨⟨⟨hproj, hpchars⟩, hdate⟩, hdur⟩, hdesc⟩, hsid⟩, horig⟩ := hv
  have hproj_ne : e.project ≠ [] := by
    intro h
    rw [h] at hproj
    cases hproj
  obtain ⟨d0, hd0⟩ : ∃ d0, e.date = some d0 := by
    cases hdm : e.date with
    | some dd => exact ⟨dd, rfl⟩
    | none =>
      rw [hdm] at hdate
      cases hdate
  have hd0v : validCivil d0 = true := by
    rw [hd0] at hdate
    exact hdate
  have hPc : ',' ∉ e.project := fun hm => (hpchars ',' hm).1 rfl
  have hDc : ',' ∉ e.description.getD [] := by
    cases hdm : e.description with
    | none => simp
    | some s =>
      rw [hdm] at hdesc
      rw [List.all_eq_true] at hdesc
      exact fun hm => by simpa using hdesc ',' hm
  have hSc : ',' ∉ e.sessionId.getD [] := by
    cases hsm : e.sessionId with
    | none => simp
    | some s =>
      rw [hsm] at hsid
      rw [List.all_eq_true] at hsid
      exact fun hm => by simpa using hsid ',' hm
  have hDurC : ',' ∉ intToChars e.duration := fun hm =>
    absurd (intToChars_pos_digits hdur ',' hm) (by decide)
  have hline : e.toCSVLine = e.project ++ ',' :: (formatCivil d0 ++ ',' ::
      (intToChars e.duration ++ ',' ::
        (e.description.getD [] ++ ',' :: e.sessionId.getD []))) := by
    unfold SessionEntry.toCSVLine
    rw [hd0]
  have hsplit : splitOnChar ',' e.toCSVLine =
      [e.project, formatCivil d0, intToChars e.duration,
        e.description.getD [], e.sessionId.getD []] := by
    rw [hline]
    exact splitOnChar_five hPc formatCivil_no_comma hDurC hDc hSc
  have htrim : trimChars e.toCSVLine ≠ [] := by
    refine trimChars_ne_nil ⟨'-', ?_, by decide⟩
    rw [hline]
    exact List.mem_append.mpr (Or.inr (List.mem_cons_of_mem _
      (List.mem_append.mpr (Or.inl (dash_mem_formatCivil d0)))))
  have hdesc_eq : (match e.description.getD [] with
      | [] => none
      | s => some s) = blankToNone e.description := by
    cases e.description with
    | none => rfl
    | some s => cases s with
      | nil => rfl
      | cons c t => rfl
  have hsid_eq : (match e.sessionId.getD [] with
      | [] => none
      | s => some s) = blankToNone e.sessionId := by
    cases e.sessionId with
    | none => rfl
    | some s => cases s with
      | nil => rfl
      | cons c t => rfl
  have hjsd : jsParseCivil (formatCivil d0) = some d0 := by
    unfold jsParseCivil
    rw [parseDateChars_formatCivil hd0v]
  unfold SessionEntry.fromCSVLine
  rw [if_neg htrim, hsplit]
  simp only [List.getD_cons_zero, List.getD_cons_succ]
  have hnonempty : ¬ (e.project = [] ∨ formatCivil d0 = [] ∨
      intToChars e.duration = []) := by
    push_neg
    exact ⟨hproj_ne, List.ne_nil_of_mem (dash_mem_formatCivil d0),
      intToChars_pos_ne_nil hdur⟩
  rw [if_neg hnonempty]
  rw [jsParseInt_intToChars hdur]
  show (if e.duration ≤ 0 then none
    else some { project := e.project, date := jsParseCivil (formatCivil d0),
                duration := e.duration,
                description := match e.description.getD [] with
                  | [] => none
                  | s => some s,
                sessionId := match e.sessionId.getD [] with
                  | [] => none
                  | s => some s,
                originalLine := some e.toCSVLine }) = some (normalizeEntry e)
  rw [if_neg (by omega : ¬ e.duration ≤ 0)]
  refine congrArg some ?_
  unfold normalizeEntry
  rw [hjsd, hd0, hdesc_eq, hsid_eq]

/-! ### Sorting comparator facts and the write/read round trip (C7) -/

theorem civilLe_trans {x y z : CivilDate} (h1 : civilLe x y = true)
    (h2 : civilLe y z = true) : civilLe x z = true := by
  simp only [civilLe, Bool.or_eq_true, Bool.and_eq_true, decide_eq_true_eq] at h1 h2 ⊢
  omega

theorem civilLe_total (x y : CivilDate) :
    civilLe x y = true ∨ civilLe y x = true := by
  simp only [civilLe, Bool.or_eq_true, Bool.and_eq_true, decide_eq_true_eq]
  omega

theorem entryLe_trans (a b c : SessionEntry) (hab : entryLe a b = true)
    (hbc : entryLe b c = true) : entryLe a c = true := by
  unfold entryLe at hab hbc ⊢
  cases ha : a.date with
  | none => rfl
  | some x =>
    cases hb : b.date with
    | none =>
      rw [ha, hb] at hab
      cases hab
    | some y =>
      cases hc : c.date with
      | none =>
        rw [hb, hc] at hbc
        cases hbc
      | some z =>
        rw [ha, hb] at hab
        rw [hb, hc] at hbc
        exact civilLe_trans hab hbc

theorem entryLe_total (a b : SessionEntry) :
    (entryLe a b || entryLe b a) = true := by
  unfold entryLe
  cases a.date with
  | none => simp
  | some x =>
    cases b.date with
    | none => simp
    | some y =>
      rcases civilLe_total x y with h | h <;> simp [h]

theorem validEntryB_originalLine {e : SessionEntry} (h : validEntryB e = true) :
    e.originalLine = none := by
  simp only [validEntryB, Bool.and_eq_true, Option.isNone_iff_eq_none] at h
  exact h.2

theorem filterMap_toCSVLine (es : List SessionEntry)
    (hv : ∀ e ∈ es, validEntryB e = true) :
    (es.map (fun e => e.toCSVLine)).filterMap SessionEntry.fromCSVLine =
      es.map normalizeEntry := by
  induction es with
  | nil => rfl
  | cons e es ih =>
    rw [List.map_cons, List.filterMap_cons, List.map_cons,
      fromCSVLine_toCSVLine (hv e (List.mem_cons_self e es)),
      ih (fun x hx => hv x (List.mem_cons_of_mem e hx))]

theorem fromCSVLine_malformed {mline : Str}
    (hmal : (splitOnChar ',' mline).getD 0 [] = [] ∨
      (splitOnChar ',' mline).getD 1 [] = [] ∨
      (splitOnChar ',' mline).getD 2 [] = [] ∨
      jsParseInt ((splitOnChar ',' mline).getD 2 []) = none ∨
      (∃ n, jsParseInt ((splitOnChar ',' mline).getD 2 []) = some n ∧ n ≤ 0)) :
    SessionEntry.fromCSVLine mline = none := by
  unfold SessionEntry.fromCSVLine
  by_cases htrim : trimChars mline = []
  · rw [if_pos htrim]
  · rw [if_neg htrim]
    by_cases hempty : (splitOnChar ',' mline).getD 0 [] = [] ∨
        (splitOnChar ',' mline).getD 1 [] = [] ∨ (splitOnChar ',' mline).getD 2 [] = []
    · rw [if_pos hempty]
    · rw [if_neg hempty]
      rcases hmal with h | h | h | h | ⟨n, hn, hle⟩
      · exact absurd (Or.inl h) hempty
      · exact absurd (Or.inr (Or.inl h)) hempty
      · exact absurd (Or.inr (Or.inr h)) hempty
      · rw [h]
      · rw [hn]
        show (if n ≤ 0 then none else _) = none
        rw [if_pos hle]

/-- C7: writing a list of valid fresh entries with `writeLogEntries` and
reading the file back with `readAllLogEntries` yields the same entries
(up to normalization of blank optional description/session-id fields and
the attachment of each entry's own CSV line), ordered ascending by date;
a missing file reads as the empty list; and a malformed line (missing
required field, non-numeric or non-positive duration) anywhere in the
file is silently skipped: the read yields exactly what it yields without
that line. -/
theorem write_read_roundtrip (es : List SessionEntry)
    (hv : ∀ e ∈ es, validEntryB e = true) :
    (readAllLogEntries (writeLogEntries es)).Perm (es.map normalizeEntry) ∧
    List.Pairwise (fun a b => entryLe a b = true)
      (readAllLogEntries (writeLogEntries es)) ∧
    readAllLogEntries none = [] ∧
    (∀ (lines₁ lines₂ : List Str) (mline : Str),
      ((splitOnChar ',' mline).getD 0 [] = [] ∨
       (splitOnChar ',' mline).getD 1 [] = [] ∨
       (splitOnChar ',' mline).getD 2 [] = [] ∨
       jsParseInt ((splitOnChar ',' mline).getD 2 []) = none ∨
       (∃ n, jsParseInt ((splitOnChar ',' mline).getD 2 []) = some n ∧ n ≤ 0)) →
      readAllLogEntries (some (csvHeader :: (lines₁ ++ mline :: lines₂))) =
        readAllLogEntries (some (csvHeader :: (lines₁ ++ lines₂)))) := by
  have hmarker : strContains csvHeader newFormatMarker = true := by decide
  have hwrite : writeLogEntries es = some (csvHeader :: es.map (fun e => e.toCSVLine)) := by
    unfold writeLogEntries
    refine congrArg some (congrArg (csvHeader :: ·) (List.map_congr_left fun e he => ?_))
    rw [validEntryB_originalLine (hv e he)]
    rfl
  have hread : ∀ lines : List Str,
      readAllLogEntries (some (csvHeader :: lines)) =
        (lines.filterMap SessionEntry.fromCSVLine).mergeSort entryLe := by
    intro lines
    unfold readAllLogEntries
    simp only [hmarker, if_true]
  have hmain : readAllLogEntries (writeLogEntries es) =
      (es.map normalizeEntry).mergeSort entryLe := by
    rw [hwrite, hread, filterMap_toCSVLine es hv]
  refine ⟨?_, ?_, rfl, ?_⟩
  · rw [hmain]
    exact List.mergeSort_perm _ _
  · rw [hmain]
    exact List.sorted_mergeSort entryLe_trans entryLe_total _
  · intro lines₁ lines₂ mline hmal
    rw [hread, hread, List.filterMap_append, List.filterMap_append,
      List.filterMap_cons, fromCSVLine_malformed hmal]

/-- Witness for `write_read_roundtrip`: one fresh entry written and read
back. -/
theorem write_read_roundtrip_witness :
    (∀ e ∈ [exFresh], validEntryB e = true) ∧
    (readAllLogEntries (writeLogEntries [exFresh])).Perm
      ([exFresh].map normalizeEntry) :=
  ⟨by decide, (write_read_roundtrip [exFresh] (by decide)).1⟩

/-- Witness for `hierarchical_stats_child_rollup` at the `business`
example stats. -/
theorem hierarchical_stats_child_rollup_witness :
    (str ("business")) ∈ hierKeys [(str ("business"), 25),
      (str ("business/quote"), 30), (str ("business/invoicing"), 45)] ∧
    (hierTotal [(str ("business"), 25), (str ("business/quote"), 30),
        (str ("business/invoicing"), 45)] (str ("business")) =
      hierDirect [(str ("business"), 25), (str ("business/quote"), 30),
        (str ("business/invoicing"), 45)] (str ("business")) +
      ((childrenOf [(str ("business"), 25), (str ("business/quote"), 30),
          (str ("business/invoicing"), 45)] (str ("business"))).map
        (hierTotal [(str ("business"), 25), (str ("business/quote"), 30),
          (str ("business/invoicing"), 45)])).sum ∧
     hierTotal [(str ("business"), 25), (str ("business/quote"), 30),
       (str ("business/invoicing"), 45)] (str ("business")) = 100) :=
  ⟨by decide,
    hierarchical_stats_child_rollup [(str ("business"), 25),
      (str ("business/quote"), 30), (str ("business/invoicing"), 45)]
      (str ("business")) (by decide)⟩

/-! ### Claim theorem: legacy row conversion (C8) -/

theorem readAllLogEntries_legacy (header : Str) (lines : List Str)
    (hh : strContains header newFormatMarker = false) :
    readAllLogEntries (some (header :: lines)) =
      (lines.filterMap
        (fun l => (TimeEntry.fromCSVLine l).map SessionEntry.fromTimeEntry)).mergeSort
        entryLe := by
  unfold readAllLogEntries
  simp only [hh, Bool.false_eq_true, if_false]

/-- C8: a legacy 3-column row `project,start,end` with parseable raw
timestamps and a positive rounded duration is converted at read time
into a date/duration entry: its duration is `round((end − start)/60000)`
minutes, its date is the calendar date of the start timestamp, and it
carries a derived `sess_`-tagged session id (session provenance); and
the conversion happens line by line, so reading a legacy file containing
the row yields exactly the converted rows of all lines — surrounding
lines are unaffected. -/
theorem legacy_row_conversion (p s e' : Str) (pMs eMs : Int)
    (hp : p ≠ []) (hpc : ',' ∉ p) (hsc : ',' ∉ s) (hec : ',' ∉ e')
    (hsnw : ∃ c ∈ s, jsWhite c = false)
    (hs : jsParseMs s = some pMs) (he : jsParseMs e' = some eMs)
    (hdur : 0 < minutesBetween pMs eMs) :
    TimeEntry.fromCSVLine (p ++ ',' :: (s ++ ',' :: e')) =
      some ⟨p, some pMs, some eMs, some (p ++ ',' :: (s ++ ',' :: e'))⟩ ∧
    SessionEntry.fromTimeEntry ⟨p, some pMs, some eMs,
        some (p ++ ',' :: (s ++ ',' :: e'))⟩ =
      { project := p
        date := some (civilOfMs pMs)
        duration := minutesBetween pMs eMs
        description := none
        sessionId := some (generateSessionId (str ("sess")) (str ("migrated")))
        originalLine := none } ∧
    (SessionEntry.fromTimeEntry ⟨p, some pMs, some eMs,
        some (p ++ ',' :: (s ++ ',' :: e'))⟩).isSessionEntry = true ∧
    (∀ (header : Str) (lines₁ lines₂ : List Str),
      strContains header newFormatMarker = false →
      readAllLogEntries
          (some (header :: (lines₁ ++ (p ++ ',' :: (s ++ ',' :: e')) :: lines₂))) =
        ((lines₁.filterMap
            (fun l => (TimeEntry.fromCSVLine l).map SessionEntry.fromTimeEntry)) ++
          SessionEntry.fromTimeEntry ⟨p, some pMs, some eMs,
            some (p ++ ',' :: (s ++ ',' :: e'))⟩ ::
          (lines₂.filterMap
            (fun l => (TimeEntry.fromCSVLine l).map
              SessionEntry.fromTimeEntry))).mergeSort entryLe) := by
  have hs_ne : s ≠ [] := by
    intro h
    rw [h] at hs
    cases hs
  have he_ne : e' ≠ [] := by
    intro h
    rw [h] at he
    cases he
  have hsplit : splitOnChar ',' (p ++ ',' :: (s ++ ',' :: e')) = [p, s, e'] := by
    rw [splitOnChar_append _ hpc, splitOnChar_append _ hsc, splitOnChar_no_sep hec]
  have htrim : trimChars (p ++ ',' :: (s ++ ',' :: e')) ≠ [] := by
    obtain ⟨c, hcs, hcw⟩ := hsnw
    refine trimChars_ne_nil ⟨c, ?_, hcw⟩
    exact List.mem_append.mpr (Or.inr (List.mem_cons_of_mem _
      (List.mem_append.mpr (Or.inl hcs))))
  have hfrom : TimeEntry.fromCSVLine (p ++ ',' :: (s ++ ',' :: e')) =
      some ⟨p, some pMs, some eMs, some (p ++ ',' :: (s ++ ',' :: e'))⟩ := by
    unfold TimeEntry.fromCSVLine
    rw [if_neg htrim, hsplit]
    simp only [List.getD_cons_zero, List.getD_cons_succ]
    rw [if_neg (by push_neg; exact ⟨hp, hs_ne, he_ne⟩), hs, he]
    show (if minutesBetween pMs eMs ≤ 0 then none
      else some (⟨p, some pMs, some eMs,
        some (p ++ ',' :: (s ++ ',' :: e'))⟩ : TimeEntry)) =
      some ⟨p, some pMs, some eMs, some (p ++ ',' :: (s ++ ',' :: e'))⟩
    rw [if_neg (by omega : ¬ minutesBetween pMs eMs ≤ 0)]
  refine ⟨hfrom, rfl, rfl, ?_⟩
  intro header lines₁ lines₂ hh
  rw [readAllLogEntries_legacy _ _ hh, List.filterMap_append, List.filterMap_cons,
    hfrom]
  rfl

/-- Witness for `legacy_row_conversion`: the legacy row
`p,2025-08-16T12:00:00.000Z,2025-08-16T12:50:00.000Z` (a 50-minute
session). -/
theorem legacy_row_conversion_witness :
    (str ("p") : Str) ≠ [] ∧
    TimeEntry.fromCSVLine (str ("p") ++ ',' ::
        (str ("2025-08-16T12:00:00.000Z") ++ ',' ::
          str ("2025-08-16T12:50:00.000Z"))) =
      some ⟨str ("p"), some 1755345600000, some 1755348600000,
        some (str ("p") ++ ',' :: (str ("2025-08-16T12:00:00.000Z") ++ ',' ::
          str ("2025-08-16T12:50:00.000Z")))⟩ :=
  ⟨by decide,
    (legacy_row_conversion (str ("p")) (str ("2025-08-16T12:00:00.000Z"))
      (str ("2025-08-16T12:50:00.000Z")) 1755345600000 1755348600000
      (by decide) (by decide) (by decide) (by decide) ⟨'-', by decide, by decide⟩
      (by decide) (by decide) (by decide)).1⟩

end TT
